import Mathlib

/-!
# Verification of the translucify flood-fill core

This file gives a shallow embedding of the flood-fill engine of
`src/translucify.js` (functions `floodFill` and its inner helper
`matchTolerance`) and proves or refutes the specified properties.

Modelling decisions, matching the JavaScript source:

* The pixel buffer `imageData.data` is a `List Nat` of bytes; indices are
  `Int` because the source's `pixelPos` arithmetic can go negative.
  A read at an out-of-range index yields `none` (JS `undefined`); any
  comparison against `undefined` is false, so `matchTolerance` returns
  `false` whenever one of its three reads is out of range.  A write at an
  out-of-range index of a `Uint8ClampedArray` is silently dropped, which
  `jsWrite` reproduces.
* `tolerance` and the derived bounds are exact rationals (`ℚ`); the
  source uses binary floating point, but every concrete value appearing in
  the spec (`0.05`, channel values `0..255`) is represented exactly enough
  that no comparison in any statement below sits on a rounding boundary.
* The outer `while (pixelStack.length)` loop has no termination proof in
  general (it genuinely diverges on some inputs, see claim C1), so the
  embedding runs it on explicit fuel: `fillRun` stops either when the
  stack empties (the source's exit) or when fuel runs out; the final
  state's `pixelStack` is `[]` exactly when the source call returns.
* `written`, `probes` and `pushes` are ghost instrumentation: `written`
  records every (x, y) the fill zeroes, `probes` records every index
  passed to `matchTolerance` (each stands for the three element reads at
  `i`, `i+1`, `i+2`), `pushes` counts stack pushes (the initial seed
  counts as the first push).  They influence nothing else.
-/

/-- The tolerance bounds computed once per fill call from the seed pixel
(lines 84-90 of the source). -/
structure Bounds where
  rMax : ℚ
  gMax : ℚ
  bMax : ℚ
  rMin : ℚ
  gMin : ℚ
  bMin : ℚ
deriving DecidableEq

/-- Read a byte of the pixel buffer at a (possibly negative) index.
Out-of-range access on a JS typed array yields `undefined`, modelled as
`none`. -/
def jsRead (data : List Nat) (i : Int) : Option Nat :=
  if h : 0 ≤ i ∧ i.toNat < data.length then some (data.get ⟨i.toNat, h.2⟩) else none

/-- Write a byte of the pixel buffer; out-of-range writes on a JS typed
array are silently dropped. -/
def jsWrite (data : List Nat) (i : Int) (v : Nat) : List Nat :=
  if 0 ≤ i ∧ i.toNat < data.length then data.set i.toNat v else data

/-- The comparison chain of `matchTolerance` (line 102 of the source) on
three byte values already read. -/
def matchChannels (bnds : Bounds) (r g b : Nat) : Bool :=
  decide ((r : ℚ) ≥ bnds.rMin) && decide ((r : ℚ) ≤ bnds.rMax) &&
  decide ((g : ℚ) ≥ bnds.gMin) && decide ((g : ℚ) ≤ bnds.gMax) &&
  decide ((b : ℚ) ≥ bnds.bMin) && decide ((b : ℚ) ≤ bnds.bMax)

/-- `matchTolerance` (lines 97-103): reads the pixel's three colour bytes
and compares them with the captured bounds.  If any read is out of range
the JS comparisons against `undefined` are all false. -/
def matchTolerance (data : List Nat) (bnds : Bounds) (pixelIndex : Int) : Bool :=
  match jsRead data pixelIndex, jsRead data (pixelIndex + 1), jsRead data (pixelIndex + 2) with
  | some r, some g, some b => matchChannels bnds r g b
  | _, _, _ => false

/-- Zero the four bytes of one pixel (lines 118-121). -/
def zero4 (data : List Nat) (i : Int) : List Nat :=
  jsWrite (jsWrite (jsWrite (jsWrite data i 0) (i + 1) 0) (i + 2) 0) (i + 3) 0

/-- Execution state of the fill: the mutable buffer, the visit stack
(top = head; JS `push`/`pop` work on the array's tail), and ghost
instrumentation. -/
structure FillState where
  data : List Nat
  pixelStack : List (Int × Int)
  written : List (Int × Int)
  probes : List Int
  pushes : Nat
deriving DecidableEq

/-- The upward walk `while (y-- >= 0 && matchTolerance(pixelPos)) pixelPos -= width*4`
(lines 110-112).  `y` is the JS variable at the loop test; the returned
pair is `(y, pixelPos)` after the loop exits (the caller then performs
`pixelPos += width * 4; ++y`).  The third component is the ghost probe
trace.  The JS `&&` short-circuits: no probe happens once `y` is
negative.  The first argument is a structural recursion counter; every
call site passes exactly `(y + 1).toNat` (the loop runs at most `y + 1`
times since `y` decreases by one per test), so the `0` case coincides
with the loop's `y < 0` exit and the function computes precisely the
source loop. -/
def upWalk (data : List Nat) (bnds : Bounds) (stride : Int) :
    Nat → Int → Int → List Int → Int × Int × List Int
  | 0, y, pixelPos, probes => (y - 1, pixelPos, probes)
  | n + 1, y, pixelPos, probes =>
    if 0 ≤ y then
      if matchTolerance data bnds pixelPos then
        upWalk data bnds stride n (y - 1) (pixelPos - stride) (probes ++ [pixelPos])
      else (y - 1, pixelPos, probes ++ [pixelPos])
    else (y - 1, pixelPos, probes)

/-- The body of the downward scanline loop (lines 118-151), executed when
the test `y++ < height - 1 && matchTolerance(pixelPos)` passed; `y` is
the JS variable at the loop test, so the row being processed is `y + 1`
(the body runs after the post-increment).  It zeroes the current pixel,
then examines the left neighbour, the right neighbour and — only when the
right neighbour fails to match — the diagonal neighbour one row up,
pushing fresh scanline seeds subject to the `reachLeft` / `reachRight`
flags.  Note the source reads and sets `reachLeft` (not `reachRight`) in
the diagonal branch.  Returns the new state and the new flag values; the
probe recording the passed test itself is also added here.
The zeroed buffer `data1` of the source is the `data` field of the
state `s1` passed along, so the neighbour tests read it faithfully.
The `if (x > 0)` block (lines 123-133): -/
def downBodyLeft (bnds : Bounds) (x y pixelPos : Int) (reachLeft : Bool)
    (s1 : FillState) : FillState × Bool :=
  if 0 < x then
    let s2 := { s1 with probes := s1.probes ++ [pixelPos - 4] }
    if matchTolerance s1.data bnds (pixelPos - 4) then
      if reachLeft then (s2, reachLeft)
      else ({ s2 with pixelStack := (x - 1, y + 1) :: s2.pixelStack,
                      pushes := s2.pushes + 1 }, true)
    else (s2, false)
  else (s1, reachLeft)

/-- The `if (x < width - 1)` block (lines 134-150); `reachLeft` here is
the flag value after the left block (the diagonal branch reads and sets
it). -/
def downBodyRight (width : Nat) (bnds : Bounds) (x y pixelPos : Int)
    (reachLeft reachRight : Bool) (sL : FillState) : FillState × Bool × Bool :=
  if x < (width : Int) - 1 then
    let s3 := { sL with probes := sL.probes ++ [pixelPos + 4] }
    if matchTolerance sL.data bnds (pixelPos + 4) then
      if reachRight then (s3, reachLeft, reachRight)
      else ({ s3 with pixelStack := (x + 1, y + 1) :: s3.pixelStack,
                      pushes := s3.pushes + 1 }, reachLeft, true)
    else
      let s4 := { s3 with probes := s3.probes ++ [pixelPos + 4 - (width : Int) * 4] }
      if matchTolerance sL.data bnds (pixelPos + 4 - (width : Int) * 4) then
        if reachLeft then (s4, reachLeft, reachRight)
        else ({ s4 with pixelStack := (x + 1, y) :: s4.pixelStack,
                        pushes := s4.pushes + 1 }, true, reachRight)
      else (s4, reachLeft, false)
  else (sL, reachLeft, reachRight)

/-- One body iteration: zero the current pixel, then the left and right
blocks. -/
def downBody (width : Nat) (bnds : Bounds) (x y pixelPos : Int)
    (reachLeft reachRight : Bool) (s : FillState) : FillState × Bool × Bool :=
  let s1 : FillState :=
    { s with data := zero4 s.data pixelPos, written := s.written ++ [(x, y + 1)],
             probes := s.probes ++ [pixelPos] }
  let left := downBodyLeft bnds x y pixelPos reachLeft s1
  downBodyRight width bnds x y pixelPos left.2 reachRight left.1

/-- The downward scanline walk
`while (y++ < height - 1 && matchTolerance(pixelPos)) { ... }`
(lines 117-152): run `downBody` while the test passes, advancing one row
per iteration (`pixelPos += width * 4`).  The first argument is a
structural recursion counter; every call site passes exactly
`((height : Int) - 1 - y).toNat` (the loop runs at most that many times
since `y` increases by one per test), so the `0` case coincides with the
loop's `y >= height - 1` exit and the function computes precisely the
source loop. -/
def downWalk (width height : Nat) (bnds : Bounds) (x : Int) :
    Nat → Int → Int → Bool → Bool → FillState → FillState
  | 0, _, _, _, _, s => s
  | n + 1, y, pixelPos, reachLeft, reachRight, s =>
    if y < (height : Int) - 1 then
      if matchTolerance s.data bnds pixelPos then
        let b := downBody width bnds x y pixelPos reachLeft reachRight s
        downWalk width height bnds x n (y + 1) (pixelPos + (width : Int) * 4) b.2.1 b.2.2 b.1
      else { s with probes := s.probes ++ [pixelPos] }
    else s

/-- One iteration of the outer `while (pixelStack.length)` loop after the
pop (lines 106-152): recompute `pixelPos`, run the upward walk, correct
by one row, then run the downward scanline walk with fresh
`reachLeft`/`reachRight`. -/
def processPixel (width height : Nat) (bnds : Bounds) (x y : Int) (s : FillState) : FillState :=
  let pixelPos := (y * (width : Int) + x) * 4
  let u := upWalk s.data bnds ((width : Int) * 4) (y + 1).toNat y pixelPos s.probes
  downWalk width height bnds x ((height : Int) - 1 - (u.1 + 1)).toNat (u.1 + 1)
    (u.2.1 + (width : Int) * 4) false false { s with probes := u.2.2 }

/-- The outer loop on explicit fuel.  The final `pixelStack` is `[]` iff
the source's loop exited. -/
def fillRun (width height : Nat) (bnds : Bounds) : Nat → FillState → FillState
  | 0, s => s
  | fuel + 1, s =>
    match s.pixelStack with
    | [] => s
    | q :: rest =>
      fillRun width height bnds fuel
        (processPixel width height bnds q.1 q.2 { s with pixelStack := rest })

/-- The bounds computed once from the seed pixel (lines 84-90).  The
claims only concern in-range seeds, for which the three reads are `some`;
`getD 0` stands in for the source's undefined behaviour otherwise. -/
def mkBounds (data : List Nat) (pixelPos : Int) (tolerance : ℚ) : Bounds :=
  let r : ℚ := ((jsRead data pixelPos).getD 0 : Nat)
  let g : ℚ := ((jsRead data (pixelPos + 1)).getD 0 : Nat)
  let b : ℚ := ((jsRead data (pixelPos + 2)).getD 0 : Nat)
  { rMax := r * (1 + tolerance), gMax := g * (1 + tolerance), bMax := b * (1 + tolerance),
    rMin := r * (1 - tolerance), gMin := g * (1 - tolerance), bMin := b * (1 - tolerance) }

/-- `floodFill(x, y, context, tolerance)` (lines 77-155) on a buffer of
`width * height * 4` bytes, run on explicit fuel.  The initial probe
records the seed reads of lines 84-90. -/
def floodFill (x y : Int) (width height : Nat) (tolerance : ℚ) (data : List Nat)
    (fuel : Nat) : FillState :=
  fillRun width height (mkBounds data ((y * (width : Int) + x) * 4) tolerance) fuel
    { data := data, pixelStack := [(x, y)], written := [],
      probes := [(y * (width : Int) + x) * 4], pushes := 1 }

/-! ## Derived notions used by the statements -/

/-- Byte index of the first channel of the pixel at coordinates `p`,
row-major RGBA (the source's `(y * width + x) * 4`). -/
def pixIdx (width : Nat) (p : Int × Int) : Int :=
  (p.2 * (width : Int) + p.1) * 4

/-- A coordinate pair lies inside the `width × height` grid. -/
def validPos (width height : Nat) (p : Int × Int) : Prop :=
  0 ≤ p.1 ∧ p.1 < (width : Int) ∧ 0 ≤ p.2 ∧ p.2 < (height : Int)

instance (width height : Nat) (p : Int × Int) : Decidable (validPos width height p) := by
  unfold validPos
  infer_instance

/-- The four RGBA bytes of the pixel at `p`. -/
def getPixel (data : List Nat) (width : Nat) (p : Int × Int) : List (Option Nat) :=
  [jsRead data (pixIdx width p), jsRead data (pixIdx width p + 1),
   jsRead data (pixIdx width p + 2), jsRead data (pixIdx width p + 3)]

/-- An all-zero RGBA pixel, as read back from the buffer. -/
def zeroPixel : List (Option Nat) :=
  [some 0, some 0, some 0, some 0]

/-- Neighbourhood actually used by the fill's propagation: the four
4-connected directions plus the `(x+1, y-1)` diagonal reattachment of
lines 141-146. -/
def Adj (a b : Int × Int) : Prop :=
  (b.1 = a.1 + 1 ∧ b.2 = a.2) ∨ (b.1 = a.1 - 1 ∧ b.2 = a.2) ∨
  (b.1 = a.1 ∧ b.2 = a.2 + 1) ∨ (b.1 = a.1 ∧ b.2 = a.2 - 1) ∨
  (b.1 = a.1 + 1 ∧ b.2 = a.2 - 1)

instance (a b : Int × Int) : Decidable (Adj a b) := by
  unfold Adj
  infer_instance

/-- One step of region growth: move to an adjacent pixel whose colour in
the given buffer satisfies the bounds predicate. -/
def MatchStep (data : List Nat) (width : Nat) (bnds : Bounds) (a b : Int × Int) : Prop :=
  Adj a b ∧ matchTolerance data bnds (pixIdx width b) = true

/-- `Reach data width bnds s t`: pixel `t` is connected to `s` through a
chain of bounds-satisfying pixels (in the sense of `MatchStep`, i.e.
4-connected with the diagonal reattachment). -/
def Reach (data : List Nat) (width : Nat) (bnds : Bounds) (s t : Int × Int) : Prop :=
  Relation.ReflTransGen (MatchStep data width bnds) s t

/-- Plain 4-connectivity (up/down/left/right), without the diagonal
reattachment. -/
def Adj4 (a b : Int × Int) : Prop :=
  (b.1 = a.1 + 1 ∧ b.2 = a.2) ∨ (b.1 = a.1 - 1 ∧ b.2 = a.2) ∨
  (b.1 = a.1 ∧ b.2 = a.2 + 1) ∨ (b.1 = a.1 ∧ b.2 = a.2 - 1)

instance (a b : Int × Int) : Decidable (Adj4 a b) := by
  unfold Adj4
  infer_instance

/-- One step of plain 4-connected region growth through bounds-satisfying
pixels. -/
def MatchStep4 (data : List Nat) (width : Nat) (bnds : Bounds) (a b : Int × Int) : Prop :=
  Adj4 a b ∧ matchTolerance data bnds (pixIdx width b) = true

/-- `Reach4 data width bnds s t`: pixel `t` is 4-connected to `s` through
a chain of bounds-satisfying pixels. -/
def Reach4 (data : List Nat) (width : Nat) (bnds : Bounds) (s t : Int × Int) : Prop :=
  Relation.ReflTransGen (MatchStep4 data width bnds) s t

/-- Does the all-zero colour satisfy the bounds?  When it does not, every
zeroed pixel permanently stops matching, which is what makes the fill
terminate. -/
def zeroMatches (bnds : Bounds) : Bool :=
  matchChannels bnds 0 0 0

/-- Number of pixel slots of the buffer whose colour satisfies the
bounds.  Strictly decreases at every write of the downward walk when
`zeroMatches bnds = false`. -/
def matchCount (data : List Nat) (bnds : Bounds) : Nat :=
  ((Finset.range (data.length / 4)).filter
    (fun p => matchTolerance data bnds (4 * ((p : Nat) : Int)) = true)).card

/-- Termination measure of the outer loop: three units per still-matching
pixel plus one per pending stack entry. -/
def stateMeasure (bnds : Bounds) (s : FillState) : Nat :=
  3 * matchCount s.data bnds + s.pixelStack.length

/-! ## Concrete scenario buffers -/

/-- One grey pixel `(200,200,200,255)`. -/
def pxGray : List Nat := [200, 200, 200, 255]

/-- One blue pixel `(0,0,255,255)`, excluded by tolerance 0.05 around grey. -/
def pxBlue : List Nat := [0, 0, 255, 255]

/-- One opaque black pixel `(0,0,0,255)`. -/
def pxBlack : List Nat := [0, 0, 0, 255]

/-- One light-grey pixel `(205,205,205,255)`: inside tolerance 0.05 of
grey 200, outside tolerance 0.01. -/
def pxGray205 : List Nat := [205, 205, 205, 255]

/-- Scenario A buffer: 4×4, uniformly grey. -/
def bufUniform : List Nat := List.flatten (List.replicate 16 pxGray)

/-- Scenario B buffer: 4×4 checkerboard, grey on even parity (so at the
(0,0) seed), blue on odd parity. -/
def bufChecker : List Nat :=
  List.flatten
    [pxGray, pxBlue, pxGray, pxBlue,
     pxBlue, pxGray, pxBlue, pxGray,
     pxGray, pxBlue, pxGray, pxBlue,
     pxBlue, pxGray, pxBlue, pxGray]

/-- 3×3 buffer whose grey region is 4-connected but which the fill does
not cover completely (seed `(1,0)`): the diagonal-reattachment branch
sets `reachLeft`, suppressing the later push of `(0,2)`. -/
def bufGap : List Nat :=
  List.flatten
    [pxBlue, pxGray, pxGray,
     pxBlue, pxGray, pxBlue,
     pxGray, pxGray, pxBlue]

/-- 3×3 buffer refuting monotonicity in the tolerance (seed `(1,0)`):
the `(2,0)` pixel is 205-grey, matched at tolerance 1/20 but not at
tolerance 1/100. -/
def bufMono : List Nat :=
  List.flatten
    [pxBlue, pxGray, pxGray205,
     pxBlue, pxGray, pxBlue,
     pxGray, pxGray, pxBlue]

/-- 2×1 all-black buffer: with a black seed the zeroed colour still
matches, and the fill ping-pongs between the two pixels forever. -/
def bufBlack2 : List Nat := List.flatten [pxBlack, pxBlack]

/-- 1×2 buffer (grey above opaque black): after a first fill the second
fill's bounds degenerate to exact black and the fill expands into the
originally-black pixel outside the first run's region. -/
def bufIdem : List Nat := List.flatten [pxGray, pxBlack]

/-! ## The execution invariant -/

/-- Invariant of the fill relative to the initial buffer `orig`, the
captured bounds and the seed, maintained by every iteration of the outer
loop and of the downward walk:

* the buffer keeps its length;
* every pending stack entry is a valid coordinate reachable from the seed
  through bounds-satisfying pixels;
* every ghost-recorded written pixel is valid, satisfied the bounds in
  the original buffer, and is reachable from the seed;
* a pixel not yet written still holds its original bytes, a written pixel
  reads back as (0,0,0,0);
* every recorded probe index is in bounds (with room for the three byte
  reads) or negative (the top-row diagonal test). -/
structure FillInvCore (orig : List Nat) (width height : Nat) (bnds : Bounds)
    (seed : Int × Int) (s : FillState) : Prop where
  len_eq : s.data.length = orig.length
  stackValid : ∀ q ∈ s.pixelStack, validPos width height q
  stackReach : ∀ q ∈ s.pixelStack, Reach orig width bnds seed q
  writtenValid : ∀ p ∈ s.written, validPos width height p
  writtenMatch : ∀ p ∈ s.written, matchTolerance orig bnds (pixIdx width p) = true
  writtenReach : ∀ p ∈ s.written, Reach orig width bnds seed p
  dataOld : ∀ p, validPos width height p → p ∉ s.written →
    getPixel s.data width p = getPixel orig width p
  dataZero : ∀ p ∈ s.written, getPixel s.data width p = zeroPixel
  probesOk : ∀ i ∈ s.probes, (0 ≤ i ∧ i + 2 < (orig.length : Int)) ∨ i < 0

/-- The full invariant: additionally, either the fill has not yet popped
anything (initial state) or the seed pixel has been written. -/
structure FillInv (orig : List Nat) (width height : Nat) (bnds : Bounds)
    (seed : Int × Int) (s : FillState)
    extends FillInvCore orig width height bnds seed s : Prop where
  seedOk : (s.pixelStack = [seed] ∧ s.written = []) ∨ seed ∈ s.written

/-! ## Evaluated bounds for the concrete scenarios

`Rat` multiplication is irreducible, so the bounds of each concrete
scenario are evaluated once by `norm_num`; everything downstream of
`mkBounds` is then kernel-computable. -/

theorem mkBounds_eval_uniform :
    mkBounds bufUniform (((0 : Int) * (4 : Nat) + 0) * 4) (1/20) =
      ⟨210, 210, 210, 190, 190, 190⟩ := by
  have h0 : jsRead bufUniform (((0 : Int) * (4 : Nat) + 0) * 4) = some 200 := by decide
  have h1 : jsRead bufUniform (((0 : Int) * (4 : Nat) + 0) * 4 + 1) = some 200 := by decide
  have h2 : jsRead bufUniform (((0 : Int) * (4 : Nat) + 0) * 4 + 2) = some 200 := by decide
  show Bounds.mk _ _ _ _ _ _ = _
  rw [h0, h1, h2]
  norm_num

theorem mkBounds_eval_checker :
    mkBounds bufChecker (((0 : Int) * (4 : Nat) + 0) * 4) (1/20) =
      ⟨210, 210, 210, 190, 190, 190⟩ := by
  have h0 : jsRead bufChecker (((0 : Int) * (4 : Nat) + 0) * 4) = some 200 := by decide
  have h1 : jsRead bufChecker (((0 : Int) * (4 : Nat) + 0) * 4 + 1) = some 200 := by decide
  have h2 : jsRead bufChecker (((0 : Int) * (4 : Nat) + 0) * 4 + 2) = some 200 := by decide
  show Bounds.mk _ _ _ _ _ _ = _
  rw [h0, h1, h2]
  norm_num

theorem mkBounds_eval_gap :
    mkBounds bufGap (((0 : Int) * (3 : Nat) + 1) * 4) (1/20) =
      ⟨210, 210, 210, 190, 190, 190⟩ := by
  have h0 : jsRead bufGap (((0 : Int) * (3 : Nat) + 1) * 4) = some 200 := by decide
  have h1 : jsRead bufGap (((0 : Int) * (3 : Nat) + 1) * 4 + 1) = some 200 := by decide
  have h2 : jsRead bufGap (((0 : Int) * (3 : Nat) + 1) * 4 + 2) = some 200 := by decide
  show Bounds.mk _ _ _ _ _ _ = _
  rw [h0, h1, h2]
  norm_num

theorem mkBounds_eval_mono100 :
    mkBounds bufMono (((0 : Int) * (3 : Nat) + 1) * 4) (1/100) =
      ⟨202, 202, 202, 198, 198, 198⟩ := by
  have h0 : jsRead bufMono (((0 : Int) * (3 : Nat) + 1) * 4) = some 200 := by decide
  have h1 : jsRead bufMono (((0 : Int) * (3 : Nat) + 1) * 4 + 1) = some 200 := by decide
  have h2 : jsRead bufMono (((0 : Int) * (3 : Nat) + 1) * 4 + 2) = some 200 := by decide
  show Bounds.mk _ _ _ _ _ _ = _
  rw [h0, h1, h2]
  norm_num

theorem mkBounds_eval_mono20 :
    mkBounds bufMono (((0 : Int) * (3 : Nat) + 1) * 4) (1/20) =
      ⟨210, 210, 210, 190, 190, 190⟩ := by
  have h0 : jsRead bufMono (((0 : Int) * (3 : Nat) + 1) * 4) = some 200 := by decide
  have h1 : jsRead bufMono (((0 : Int) * (3 : Nat) + 1) * 4 + 1) = some 200 := by decide
  have h2 : jsRead bufMono (((0 : Int) * (3 : Nat) + 1) * 4 + 2) = some 200 := by decide
  show Bounds.mk _ _ _ _ _ _ = _
  rw [h0, h1, h2]
  norm_num

theorem mkBounds_eval_black2 :
    mkBounds bufBlack2 (((0 : Int) * (2 : Nat) + 0) * 4) 0 = ⟨0, 0, 0, 0, 0, 0⟩ := by
  have h0 : jsRead bufBlack2 (((0 : Int) * (2 : Nat) + 0) * 4) = some 0 := by decide
  have h1 : jsRead bufBlack2 (((0 : Int) * (2 : Nat) + 0) * 4 + 1) = some 0 := by decide
  have h2 : jsRead bufBlack2 (((0 : Int) * (2 : Nat) + 0) * 4 + 2) = some 0 := by decide
  show Bounds.mk _ _ _ _ _ _ = _
  rw [h0, h1, h2]
  norm_num

theorem mkBounds_eval_idem :
    mkBounds bufIdem (((0 : Int) * (1 : Nat) + 0) * 4) (1/20) =
      ⟨210, 210, 210, 190, 190, 190⟩ := by
  have h0 : jsRead bufIdem (((0 : Int) * (1 : Nat) + 0) * 4) = some 200 := by decide
  have h1 : jsRead bufIdem (((0 : Int) * (1 : Nat) + 0) * 4 + 1) = some 200 := by decide
  have h2 : jsRead bufIdem (((0 : Int) * (1 : Nat) + 0) * 4 + 2) = some 200 := by decide
  show Bounds.mk _ _ _ _ _ _ = _
  rw [h0, h1, h2]
  norm_num

theorem mkBounds_eval_idem2 :
    mkBounds [0, 0, 0, 0, 0, 0, 0, 255] (((0 : Int) * (1 : Nat) + 0) * 4) (1/20) =
      ⟨0, 0, 0, 0, 0, 0⟩ := by
  have h0 : jsRead [0, 0, 0, 0, 0, 0, 0, 255] (((0 : Int) * (1 : Nat) + 0) * 4) = some 0 := by
    decide
  have h1 : jsRead [0, 0, 0, 0, 0, 0, 0, 255] (((0 : Int) * (1 : Nat) + 0) * 4 + 1) = some 0 := by
    decide
  have h2 : jsRead [0, 0, 0, 0, 0, 0, 0, 255] (((0 : Int) * (1 : Nat) + 0) * 4 + 2) = some 0 := by
    decide
  show Bounds.mk _ _ _ _ _ _ = _
  rw [h0, h1, h2]
  norm_num

/-! ## Concrete scenario theorems -/

/-- C8: on a 4×4 buffer in which every pixel is (200,200,200,255), fill
with seed (0,0) and tolerance 0.05 terminates and sets all 16 pixels to
(0,0,0,0). -/
theorem c8_uniform_fill :
    (floodFill 0 0 4 4 (1/20) bufUniform 40).data = List.replicate 64 0 ∧
    (floodFill 0 0 4 4 (1/20) bufUniform 40).pixelStack = [] := by
  unfold floodFill
  rw [mkBounds_eval_uniform]
  decide

/-- C7 counterexample: on the 4×4 grey/blue checkerboard with seed (0,0)
and tolerance 0.05, the fill returns leaving the grey pixel (1,1) at its
original value (200,200,200,255) — it does not zero the 8 grey pixels,
because the greys are only diagonally adjacent and the fill is
4-connected (the (x+1,y-1) reattachment does not fire on the top row). -/
theorem c7_counterexample :
    getPixel bufChecker 4 (1, 1) = [some 200, some 200, some 200, some 255] ∧
    (floodFill 0 0 4 4 (1/20) bufChecker 40).pixelStack = [] ∧
    getPixel (floodFill 0 0 4 4 (1/20) bufChecker 40).data 4 (1, 1) =
      [some 200, some 200, some 200, some 255] := by
  refine ⟨by decide, ?_, ?_⟩ <;>
  · unfold floodFill
    rw [mkBounds_eval_checker]
    decide

/-- C7 amended: on the 4×4 grey/blue checkerboard with seed (0,0) and
tolerance 0.05, the fill terminates having zeroed exactly the seed pixel
(0,0); every other pixel, grey or blue, is unchanged. -/
theorem c7_checkerboard_amended :
    (floodFill 0 0 4 4 (1/20) bufChecker 40).data =
      [0, 0, 0, 0] ++ List.drop 4 bufChecker ∧
    (floodFill 0 0 4 4 (1/20) bufChecker 40).pixelStack = [] ∧
    (floodFill 0 0 4 4 (1/20) bufChecker 40).written = [(0, 0)] := by
  unfold floodFill
  rw [mkBounds_eval_checker]
  decide

/-- C2 (code bug): on the 3×3 buffer `bufGap` with seed (1,0) and
tolerance 0.05, the grey pixel (0,2) is 4-connected to the seed through
within-tolerance grey pixels ((1,0)-(1,1)-(1,2)-(0,2)), yet the fill
returns with (0,2) still at its original value (200,200,200,255): the
diagonal-reattachment branch set `reachLeft` on row 1, which suppressed
the push of (0,2) from row 2. -/
theorem c2_incomplete_fill_bug :
    Reach4 bufGap 3 (mkBounds bufGap (((0 : Int) * (3 : Nat) + 1) * 4) (1/20)) (1, 0) (0, 2) ∧
    getPixel bufGap 3 (0, 2) = [some 200, some 200, some 200, some 255] ∧
    (floodFill 1 0 3 3 (1/20) bufGap 40).pixelStack = [] ∧
    getPixel (floodFill 1 0 3 3 (1/20) bufGap 40).data 3 (0, 2) =
      [some 200, some 200, some 200, some 255] := by
  refine ⟨?_, by decide, ?_, ?_⟩
  · have h1 : MatchStep4 bufGap 3 (mkBounds bufGap (((0 : Int) * (3 : Nat) + 1) * 4) (1/20))
        (1, 0) (1, 1) := by
      refine ⟨by decide, ?_⟩
      rw [mkBounds_eval_gap]
      decide
    have h2 : MatchStep4 bufGap 3 (mkBounds bufGap (((0 : Int) * (3 : Nat) + 1) * 4) (1/20))
        (1, 1) (1, 2) := by
      refine ⟨by decide, ?_⟩
      rw [mkBounds_eval_gap]
      decide
    have h3 : MatchStep4 bufGap 3 (mkBounds bufGap (((0 : Int) * (3 : Nat) + 1) * 4) (1/20))
        (1, 2) (0, 2) := by
      refine ⟨by decide, ?_⟩
      rw [mkBounds_eval_gap]
      decide
    exact Relation.ReflTransGen.head h1 (Relation.ReflTransGen.head h2
      (Relation.ReflTransGen.single h3))
  · unfold floodFill
    rw [mkBounds_eval_gap]
    decide
  · unfold floodFill
    rw [mkBounds_eval_gap]
    decide

/-- C5 counterexample: same 3×3 buffer `bufMono` and seed (1,0), two
tolerances 1/100 < 1/20.  Both runs terminate; the run at the smaller
tolerance zeroes (0,2), the run at the larger tolerance leaves (0,2)
grey, so the zeroed region is not monotone in the tolerance. -/
theorem c5_counterexample :
    (1/100 : ℚ) < 1/20 ∧
    ((0, 2) ∈ (floodFill 1 0 3 3 (1/100) bufMono 40).written ∧
     (floodFill 1 0 3 3 (1/100) bufMono 40).pixelStack = [] ∧
     (0, 2) ∉ (floodFill 1 0 3 3 (1/20) bufMono 40).written ∧
     (floodFill 1 0 3 3 (1/20) bufMono 40).pixelStack = [] ∧
     getPixel (floodFill 1 0 3 3 (1/20) bufMono 40).data 3 (0, 2) =
       [some 200, some 200, some 200, some 255]) := by
  refine ⟨by norm_num, ?_⟩
  unfold floodFill
  rw [mkBounds_eval_mono100, mkBounds_eval_mono20]
  decide

/-- C6 counterexample: 1×2 buffer, grey seed pixel above an opaque black
pixel, tolerance 0.05.  The first fill zeroes exactly the seed.  A second
fill with the same seed and tolerance (no external changes) zeroes the
black pixel (0,1) as well — a pixel outside the region zeroed by the
first run — because the second run's bounds degenerate to exact black. -/
theorem c6_counterexample :
    (floodFill 0 0 1 2 (1/20) bufIdem 10).pixelStack = [] ∧
    (floodFill 0 0 1 2 (1/20) bufIdem 10).written = [(0, 0)] ∧
    getPixel (floodFill 0 0 1 2 (1/20) bufIdem 10).data 1 (0, 1) =
      [some 0, some 0, some 0, some 255] ∧
    (floodFill 0 0 1 2 (1/20) ((floodFill 0 0 1 2 (1/20) bufIdem 10).data) 10).pixelStack = [] ∧
    (0, 1) ∈ (floodFill 0 0 1 2 (1/20) ((floodFill 0 0 1 2 (1/20) bufIdem 10).data) 10).written ∧
    getPixel (floodFill 0 0 1 2 (1/20) ((floodFill 0 0 1 2 (1/20) bufIdem 10).data) 10).data
      1 (0, 1) = zeroPixel := by
  have hdata : (floodFill 0 0 1 2 (1/20) bufIdem 10).data = [0, 0, 0, 0, 0, 0, 0, 255] := by
    unfold floodFill
    rw [mkBounds_eval_idem]
    decide
  refine ⟨?_, ?_, ?_, ?_, ?_, ?_⟩
  · unfold floodFill
    rw [mkBounds_eval_idem]
    decide
  · unfold floodFill
    rw [mkBounds_eval_idem]
    decide
  · rw [hdata]
    decide
  · rw [hdata]
    unfold floodFill
    rw [mkBounds_eval_idem2]
    decide
  · rw [hdata]
    unfold floodFill
    rw [mkBounds_eval_idem2]
    decide
  · rw [hdata]
    unfold floodFill
    rw [mkBounds_eval_idem2]
    decide

/-- C1 counterexample: 2×1 all-black buffer, seed (0,0), tolerance 0.
After 3 outer-loop iterations the visit stack is still non-empty and 4
pushes have happened, exceeding the claimed width·height = 2 bound; and
the (data, stack) state after 5 iterations equals the state after 3
iterations, so the deterministic outer loop cycles and never reaches the
empty-stack exit. -/
theorem c1_counterexample :
    (floodFill 0 0 2 1 0 bufBlack2 3).pixelStack ≠ [] ∧
    2 * 1 < (floodFill 0 0 2 1 0 bufBlack2 3).pushes ∧
    (floodFill 0 0 2 1 0 bufBlack2 5).data = (floodFill 0 0 2 1 0 bufBlack2 3).data ∧
    (floodFill 0 0 2 1 0 bufBlack2 5).pixelStack =
      (floodFill 0 0 2 1 0 bufBlack2 3).pixelStack := by
  unfold floodFill
  rw [mkBounds_eval_black2]
  decide

/-- C9 counterexample: on the 4×4 checkerboard run of scenario B, the
fill calls `matchTolerance` on the negative index −12 (the diagonal
reattachment test `pixelPos + 4 - width*4` evaluated on the top row at
x = 0), so its three element reads at −12, −11, −10 are all outside
[0, width·height·4). -/
theorem c9_counterexample :
    (-12 : Int) ∈ (floodFill 0 0 4 4 (1/20) bufChecker 40).probes ∧ (-12 : Int) < 0 := by
  unfold floodFill
  rw [mkBounds_eval_checker]
  decide

/-! ## Basic buffer lemmas -/

theorem jsRead_neg (data : List Nat) (i : Int) (hi : i < 0) : jsRead data i = none := by
  unfold jsRead
  rw [dif_neg]
  intro h
  omega

theorem jsRead_of_length_le (data : List Nat) (i : Int) (hi : (data.length : Int) ≤ i) :
    jsRead data i = none := by
  unfold jsRead
  rw [dif_neg]
  intro h
  omega

theorem jsRead_some_bounds {data : List Nat} {i : Int} {v : Nat} (h : jsRead data i = some v) :
    0 ≤ i ∧ i < (data.length : Int) := by
  unfold jsRead at h
  split at h
  · omega
  · exact absurd h (by simp)

theorem jsRead_eq_getElem (data : List Nat) (i : Int) (h0 : 0 ≤ i)
    (h1 : i.toNat < data.length) : jsRead data i = some (data[i.toNat]) := by
  unfold jsRead
  rw [dif_pos ⟨h0, h1⟩]
  simp [List.get_eq_getElem]

theorem length_jsWrite (data : List Nat) (i : Int) (v : Nat) :
    (jsWrite data i v).length = data.length := by
  unfold jsWrite
  split
  · exact data.length_set i.toNat v
  · rfl

theorem length_zero4 (data : List Nat) (i : Int) : (zero4 data i).length = data.length := by
  unfold zero4
  rw [length_jsWrite, length_jsWrite, length_jsWrite, length_jsWrite]

theorem jsRead_jsWrite_ne (data : List Nat) (i j : Int) (v : Nat) (hij : i ≠ j) :
    jsRead (jsWrite data j v) i = jsRead data i := by
  unfold jsWrite
  split
  · rename_i hj
    unfold jsRead
    by_cases hi : 0 ≤ i ∧ i.toNat < data.length
    · have hi2 : 0 ≤ i ∧ i.toNat < (data.set j.toNat v).length := by
        rw [List.length_set]
        exact hi
      rw [dif_pos hi2, dif_pos hi]
      simp only [List.get_eq_getElem]
      congr 1
      apply List.getElem_set_ne
      omega
    · have hi2 : ¬(0 ≤ i ∧ i.toNat < (data.set j.toNat v).length) := by
        rw [List.length_set]
        exact hi
      rw [dif_neg hi2, dif_neg hi]
  · rfl

theorem jsRead_jsWrite_self (data : List Nat) (j : Int) (v : Nat) (h0 : 0 ≤ j)
    (h1 : j < (data.length : Int)) : jsRead (jsWrite data j v) j = some v := by
  have hj : 0 ≤ j ∧ j.toNat < data.length := ⟨h0, by omega⟩
  unfold jsWrite
  rw [if_pos hj]
  unfold jsRead
  rw [dif_pos (by rw [List.length_set]; exact hj)]
  simp [List.get_eq_getElem]

theorem matchTolerance_eq_false_of_neg (data : List Nat) (bnds : Bounds) (i : Int)
    (hi : i < 0) : matchTolerance data bnds i = false := by
  unfold matchTolerance
  rw [jsRead_neg data i hi]

theorem matchTolerance_congr (data1 data2 : List Nat) (bnds : Bounds) (i : Int)
    (h0 : jsRead data1 i = jsRead data2 i) (h1 : jsRead data1 (i + 1) = jsRead data2 (i + 1))
    (h2 : jsRead data1 (i + 2) = jsRead data2 (i + 2)) :
    matchTolerance data1 bnds i = matchTolerance data2 bnds i := by
  unfold matchTolerance
  rw [h0, h1, h2]

theorem matchTolerance_true_reads {data : List Nat} {bnds : Bounds} {i : Int}
    (h : matchTolerance data bnds i = true) :
    ∃ r g b, jsRead data i = some r ∧ jsRead data (i + 1) = some g ∧
      jsRead data (i + 2) = some b ∧ matchChannels bnds r g b = true := by
  unfold matchTolerance at h
  rcases h0 : jsRead data i with _ | r <;> rw [h0] at h
  · exact absurd h (by simp)
  rcases h1 : jsRead data (i + 1) with _ | g <;> rw [h1] at h
  · exact absurd h (by simp)
  rcases h2 : jsRead data (i + 2) with _ | b <;> rw [h2] at h
  · exact absurd h (by simp)
  exact ⟨r, g, b, rfl, rfl, rfl, h⟩

theorem matchTolerance_true_bounds {data : List Nat} {bnds : Bounds} {i : Int}
    (h : matchTolerance data bnds i = true) : 0 ≤ i ∧ i + 2 < (data.length : Int) := by
  obtain ⟨r, g, b, h0, h1, h2, -⟩ := matchTolerance_true_reads h
  have b0 := jsRead_some_bounds h0
  have b2 := jsRead_some_bounds h2
  omega

/-! ## Pixel index arithmetic -/

theorem pixIdx_right (width : Nat) (x r : Int) :
    pixIdx width (x + 1, r) = pixIdx width (x, r) + 4 := by
  unfold pixIdx
  ring

theorem pixIdx_left (width : Nat) (x r : Int) :
    pixIdx width (x - 1, r) = pixIdx width (x, r) - 4 := by
  unfold pixIdx
  ring

theorem pixIdx_down (width : Nat) (x r : Int) :
    pixIdx width (x, r + 1) = pixIdx width (x, r) + (width : Int) * 4 := by
  unfold pixIdx
  ring

theorem pixIdx_up (width : Nat) (x r : Int) :
    pixIdx width (x, r - 1) = pixIdx width (x, r) - (width : Int) * 4 := by
  unfold pixIdx
  ring

theorem pixIdx_diag (width : Nat) (x r : Int) :
    pixIdx width (x + 1, r - 1) = pixIdx width (x, r) + 4 - (width : Int) * 4 := by
  unfold pixIdx
  ring

theorem pixIdx_nonneg {width height : Nat} {p : Int × Int} (hp : validPos width height p) :
    0 ≤ pixIdx width p := by
  obtain ⟨hx0, hxw, hy0, hyh⟩ := hp
  unfold pixIdx
  have h1 : 0 ≤ p.2 * (width : Int) := mul_nonneg hy0 (by positivity)
  nlinarith

theorem pixIdx_add3_lt {width height : Nat} {p : Int × Int} (hp : validPos width height p) :
    pixIdx width p + 3 < ((width * height * 4 : Nat) : Int) := by
  obtain ⟨hx0, hxw, hy0, hyh⟩ := hp
  unfold pixIdx
  push_cast
  have h1 : p.2 + 1 ≤ (height : Int) := by omega
  have h2 : (p.2 + 1) * (width : Int) ≤ (height : Int) * (width : Int) :=
    mul_le_mul_of_nonneg_right h1 (by positivity)
  nlinarith

theorem pixIdx_inj {width height : Nat} {p q : Int × Int} (hp : validPos width height p)
    (hq : validPos width height q) (k l : Int) (hk0 : 0 ≤ k) (hk : k < 4) (hl0 : 0 ≤ l)
    (hl : l < 4) (heq : pixIdx width p + k = pixIdx width q + l) : p = q := by
  obtain ⟨hpx0, hpxw, hpy0, hpyh⟩ := hp
  obtain ⟨hqx0, hqxw, hqy0, hqyh⟩ := hq
  unfold pixIdx at heq
  have hw : (0 : Int) < (width : Int) := by omega
  have hAB : p.2 * (width : Int) + p.1 = q.2 * (width : Int) + q.1 := by
    set A := p.2 * (width : Int) + p.1 with hA
    set B := q.2 * (width : Int) + q.1 with hB
    omega
  have hy : p.2 = q.2 := by
    by_contra hne
    rcases lt_or_gt_of_ne hne with hlt | hgt
    · have hstep : p.2 + 1 ≤ q.2 := by omega
      have := mul_le_mul_of_nonneg_right hstep (le_of_lt hw)
      nlinarith
    · have hstep : q.2 + 1 ≤ p.2 := by omega
      have := mul_le_mul_of_nonneg_right hstep (le_of_lt hw)
      nlinarith
  have hx : p.1 = q.1 := by
    rw [hy] at hAB
    linarith
  exact Prod.ext hx hy

theorem pixIdx_disjoint {width height : Nat} {p q : Int × Int} (hp : validPos width height p)
    (hq : validPos width height q) (hne : p ≠ q) (k : Int) (hk0 : 0 ≤ k) (hk : k < 4) :
    pixIdx width p + k < pixIdx width q ∨ pixIdx width q + 3 < pixIdx width p + k := by
  by_contra hcon
  push_neg at hcon
  exact hne (pixIdx_inj hp hq k (pixIdx width p + k - pixIdx width q) hk0 hk
    (by omega) (by omega) (by ring_nf))

/-! ## Effect of zeroing one pixel -/

theorem zero4_reads (data : List Nat) (i : Int) (h0 : 0 ≤ i)
    (h3 : i + 3 < (data.length : Int)) :
    jsRead (zero4 data i) i = some 0 ∧ jsRead (zero4 data i) (i + 1) = some 0 ∧
    jsRead (zero4 data i) (i + 2) = some 0 ∧ jsRead (zero4 data i) (i + 3) = some 0 := by
  have l1 : (jsWrite data i 0).length = data.length := length_jsWrite data i 0
  have l2 : (jsWrite (jsWrite data i 0) (i + 1) 0).length = data.length := by
    rw [length_jsWrite, l1]
  have l3 : (jsWrite (jsWrite (jsWrite data i 0) (i + 1) 0) (i + 2) 0).length = data.length := by
    rw [length_jsWrite, l2]
  refine ⟨?_, ?_, ?_, ?_⟩
  · unfold zero4
    rw [jsRead_jsWrite_ne _ i (i + 3) 0 (by omega),
        jsRead_jsWrite_ne _ i (i + 2) 0 (by omega),
        jsRead_jsWrite_ne _ i (i + 1) 0 (by omega)]
    exact jsRead_jsWrite_self data i 0 h0 (by omega)
  · unfold zero4
    rw [jsRead_jsWrite_ne _ (i + 1) (i + 3) 0 (by omega),
        jsRead_jsWrite_ne _ (i + 1) (i + 2) 0 (by omega)]
    exact jsRead_jsWrite_self _ (i + 1) 0 (by omega) (by rw [l1]; omega)
  · unfold zero4
    rw [jsRead_jsWrite_ne _ (i + 2) (i + 3) 0 (by omega)]
    exact jsRead_jsWrite_self _ (i + 2) 0 (by omega) (by rw [l2]; omega)
  · unfold zero4
    exact jsRead_jsWrite_self _ (i + 3) 0 (by omega) (by rw [l3]; omega)

theorem jsRead_zero4_ne (data : List Nat) (j i : Int) (h : i < j ∨ j + 3 < i) :
    jsRead (zero4 data j) i = jsRead data i := by
  unfold zero4
  rw [jsRead_jsWrite_ne _ i (j + 3) 0 (by omega),
      jsRead_jsWrite_ne _ i (j + 2) 0 (by omega),
      jsRead_jsWrite_ne _ i (j + 1) 0 (by omega),
      jsRead_jsWrite_ne _ i j 0 (by omega)]

theorem getPixel_zero4_self {width height : Nat} {p : Int × Int} (data : List Nat)
    (hlen : data.length = width * height * 4) (hp : validPos width height p) :
    getPixel (zero4 data (pixIdx width p)) width p = zeroPixel := by
  have h0 : 0 ≤ pixIdx width p := pixIdx_nonneg hp
  have h3 : pixIdx width p + 3 < (data.length : Int) := by
    rw [hlen]
    exact pixIdx_add3_lt hp
  obtain ⟨e0, e1, e2, e3⟩ := zero4_reads data (pixIdx width p) h0 h3
  unfold getPixel zeroPixel
  rw [e0, e1, e2, e3]

theorem getPixel_zero4_other {width height : Nat} {p q : Int × Int} (data : List Nat)
    (hp : validPos width height p) (hq : validPos width height q) (hne : p ≠ q) :
    getPixel (zero4 data (pixIdx width q)) width p = getPixel data width p := by
  unfold getPixel
  rw [jsRead_zero4_ne data _ _ (by simpa using pixIdx_disjoint hp hq hne 0 (by omega) (by omega)),
      jsRead_zero4_ne data _ _ (pixIdx_disjoint hp hq hne 1 (by omega) (by omega)),
      jsRead_zero4_ne data _ _ (pixIdx_disjoint hp hq hne 2 (by omega) (by omega)),
      jsRead_zero4_ne data _ _ (pixIdx_disjoint hp hq hne 3 (by omega) (by omega))]

theorem matchTolerance_zero4_other {width height : Nat} {p q : Int × Int} (data : List Nat)
    (bnds : Bounds) (hp : validPos width height p) (hq : validPos width height q)
    (hne : p ≠ q) :
    matchTolerance (zero4 data (pixIdx width q)) bnds (pixIdx width p) =
      matchTolerance data bnds (pixIdx width p) := by
  apply matchTolerance_congr
  · exact jsRead_zero4_ne data _ _ (by simpa using pixIdx_disjoint hp hq hne 0 (by omega) (by omega))
  · exact jsRead_zero4_ne data _ _ (pixIdx_disjoint hp hq hne 1 (by omega) (by omega))
  · exact jsRead_zero4_ne data _ _ (pixIdx_disjoint hp hq hne 2 (by omega) (by omega))

theorem matchTolerance_zero4_self {width height : Nat} {p : Int × Int} (data : List Nat)
    (bnds : Bounds) (hlen : data.length = width * height * 4) (hp : validPos width height p) :
    matchTolerance (zero4 data (pixIdx width p)) bnds (pixIdx width p) = zeroMatches bnds := by
  have h0 : 0 ≤ pixIdx width p := pixIdx_nonneg hp
  have h3 : pixIdx width p + 3 < (data.length : Int) := by
    rw [hlen]
    exact pixIdx_add3_lt hp
  obtain ⟨e0, e1, e2, e3⟩ := zero4_reads data (pixIdx width p) h0 h3
  unfold matchTolerance
  rw [e0, e1, e2]
  rfl

theorem matchTolerance_eq_of_getPixel {width : Nat} {p : Int × Int} {data1 data2 : List Nat}
    (bnds : Bounds) (h : getPixel data1 width p = getPixel data2 width p) :
    matchTolerance data1 bnds (pixIdx width p) = matchTolerance data2 bnds (pixIdx width p) := by
  unfold getPixel at h
  simp only [List.cons.injEq] at h
  exact matchTolerance_congr _ _ _ _ h.1 h.2.1 h.2.2.1

theorem matchTolerance_of_zeroPixel {width : Nat} {p : Int × Int} {data : List Nat}
    (bnds : Bounds) (h : getPixel data width p = zeroPixel) :
    matchTolerance data bnds (pixIdx width p) = zeroMatches bnds := by
  unfold getPixel zeroPixel at h
  simp only [List.cons.injEq] at h
  unfold matchTolerance
  rw [h.1, h.2.1, h.2.2.1]
  rfl

/-! ## Invariant preservation primitives -/

theorem matchTolerance_eq_false_of_ge (data : List Nat) (bnds : Bounds) (i : Int)
    (hi : (data.length : Int) ≤ i) : matchTolerance data bnds i = false := by
  unfold matchTolerance
  rw [jsRead_of_length_le data i hi]

theorem reach_step {orig : List Nat} {width : Nat} {bnds : Bounds} {seed a b : Int × Int}
    (ha : Reach orig width bnds seed a) (hadj : Adj a b)
    (hb : matchTolerance orig bnds (pixIdx width b) = true) :
    Reach orig width bnds seed b :=
  Relation.ReflTransGen.tail ha ⟨hadj, hb⟩

theorem FillInvCore.preMatch_of_matchNow {orig : List Nat} {width height : Nat}
    {bnds : Bounds} {seed : Int × Int} {s : FillState}
    (inv : FillInvCore orig width height bnds seed s) {p : Int × Int}
    (hp : validPos width height p)
    (hm : matchTolerance s.data bnds (pixIdx width p) = true) :
    matchTolerance orig bnds (pixIdx width p) = true := by
  by_cases hw : p ∈ s.written
  · exact inv.writtenMatch p hw
  · rw [← matchTolerance_eq_of_getPixel bnds (inv.dataOld p hp hw)]
    exact hm

theorem FillInvCore.addProbe {orig : List Nat} {width height : Nat} {bnds : Bounds}
    {seed : Int × Int} {s : FillState}
    (inv : FillInvCore orig width height bnds seed s) (i : Int)
    (hi : (0 ≤ i ∧ i + 2 < (orig.length : Int)) ∨ i < 0) :
    FillInvCore orig width height bnds seed { s with probes := s.probes ++ [i] } := by
  refine ⟨inv.len_eq, inv.stackValid, inv.stackReach, inv.writtenValid, inv.writtenMatch,
    inv.writtenReach, inv.dataOld, inv.dataZero, ?_⟩
  intro j hj
  rcases List.mem_append.1 hj with hj | hj
  · exact inv.probesOk j hj
  · rw [List.mem_singleton.1 hj]
    exact hi

theorem FillInvCore.push {orig : List Nat} {width height : Nat} {bnds : Bounds}
    {seed : Int × Int} {s : FillState}
    (inv : FillInvCore orig width height bnds seed s) (q : Int × Int)
    (hq : validPos width height q) (hr : Reach orig width bnds seed q) :
    FillInvCore orig width height bnds seed
      { s with pixelStack := q :: s.pixelStack, pushes := s.pushes + 1 } := by
  refine ⟨inv.len_eq, ?_, ?_, inv.writtenValid, inv.writtenMatch, inv.writtenReach,
    inv.dataOld, inv.dataZero, inv.probesOk⟩
  · intro q' hq'
    rcases List.mem_cons.1 hq' with hq' | hq'
    · rw [hq']
      exact hq
    · exact inv.stackValid q' hq'
  · intro q' hq'
    rcases List.mem_cons.1 hq' with hq' | hq'
    · rw [hq']
      exact hr
    · exact inv.stackReach q' hq'

theorem FillInvCore.writeZero {orig : List Nat} {width height : Nat} {bnds : Bounds}
    {seed : Int × Int} {s : FillState} (hlen : orig.length = width * height * 4)
    (inv : FillInvCore orig width height bnds seed s) (p : Int × Int)
    (hp : validPos width height p)
    (hm : matchTolerance s.data bnds (pixIdx width p) = true)
    (hr : Reach orig width bnds seed p) :
    FillInvCore orig width height bnds seed
      { s with data := zero4 s.data (pixIdx width p), written := s.written ++ [p] } := by
  have hsl : s.data.length = width * height * 4 := by rw [inv.len_eq, hlen]
  refine ⟨?_, inv.stackValid, inv.stackReach, ?_, ?_, ?_, ?_, ?_, inv.probesOk⟩
  · show (zero4 s.data (pixIdx width p)).length = orig.length
    rw [length_zero4, inv.len_eq]
  · intro q hq
    rcases List.mem_append.1 hq with hq | hq
    · exact inv.writtenValid q hq
    · rw [List.mem_singleton.1 hq]
      exact hp
  · intro q hq
    rcases List.mem_append.1 hq with hq | hq
    · exact inv.writtenMatch q hq
    · rw [List.mem_singleton.1 hq]
      exact inv.preMatch_of_matchNow hp hm
  · intro q hq
    rcases List.mem_append.1 hq with hq | hq
    · exact inv.writtenReach q hq
    · rw [List.mem_singleton.1 hq]
      exact hr
  · intro q hqv hqn
    have hqn1 : q ∉ s.written := fun hc => hqn (List.mem_append.2 (Or.inl hc))
    have hqp : q ≠ p := fun hc => hqn (List.mem_append.2 (Or.inr (by rw [hc]; exact List.mem_singleton_self p)))
    show getPixel (zero4 s.data (pixIdx width p)) width q = getPixel orig width q
    rw [getPixel_zero4_other s.data hqv hp hqp]
    exact inv.dataOld q hqv hqn1
  · intro q hq
    by_cases hqp : q = p
    · rw [hqp]
      show getPixel (zero4 s.data (pixIdx width p)) width p = zeroPixel
      exact getPixel_zero4_self s.data hsl hp
    · rcases List.mem_append.1 hq with hq | hq
      · have hqv := inv.writtenValid q hq
        show getPixel (zero4 s.data (pixIdx width p)) width q = zeroPixel
        rw [getPixel_zero4_other s.data hqv hp hqp]
        exact inv.dataZero q hq
      · exact absurd (List.mem_singleton.1 hq) hqp

/-! ## Characterisation of the upward walk -/

theorem upWalk_spec (data : List Nat) (bnds : Bounds) (width : Nat) (x : Int) :
    ∀ (n : Nat) (y pixelPos : Int) (probes : List Int),
      n = (y + 1).toNat →
      pixelPos = pixIdx width (x, y) →
      ∃ k : Nat,
        (upWalk data bnds ((width : Int) * 4) n y pixelPos probes).1 = y - (k : Int) - 1 ∧
        (upWalk data bnds ((width : Int) * 4) n y pixelPos probes).2.1 =
          pixIdx width (x, y - (k : Int)) ∧
        (∀ j : Int, 0 ≤ j → j < (k : Int) →
          matchTolerance data bnds (pixIdx width (x, y - j)) = true) ∧
        (y - (k : Int) < 0 ∨
          matchTolerance data bnds (pixIdx width (x, y - (k : Int))) = false) ∧
        (∀ i ∈ (upWalk data bnds ((width : Int) * 4) n y pixelPos probes).2.2,
          i ∈ probes ∨ ∃ r : Int, 0 ≤ r ∧ r ≤ y ∧ i = pixIdx width (x, r)) := by
  intro n
  induction n with
  | zero =>
    intro y pixelPos probes hn hpp
    have hy : y ≤ -1 := by omega
    refine ⟨0, ?_, ?_, ?_, ?_, ?_⟩
    · show y - 1 = y - (0 : Int) - 1
      norm_num
    · show pixelPos = pixIdx width (x, y - (0 : Int))
      rw [hpp]
      norm_num
    · intro j hj0 hj
      omega
    · left
      omega
    · intro i hi
      exact Or.inl hi
  | succ n ih =>
    intro y pixelPos probes hn hpp
    have hy : 0 ≤ y := by omega
    by_cases hm : matchTolerance data bnds pixelPos = true
    · have hstep : upWalk data bnds ((width : Int) * 4) (n + 1) y pixelPos probes =
          upWalk data bnds ((width : Int) * 4) n (y - 1) (pixelPos - (width : Int) * 4)
            (probes ++ [pixelPos]) := by
        show (if 0 ≤ y then
            if matchTolerance data bnds pixelPos then
              upWalk data bnds ((width : Int) * 4) n (y - 1) (pixelPos - (width : Int) * 4)
                (probes ++ [pixelPos])
            else (y - 1, pixelPos, probes ++ [pixelPos])
          else (y - 1, pixelPos, probes)) = _
        rw [if_pos hy, if_pos hm]
      have hpp1 : pixelPos - (width : Int) * 4 = pixIdx width (x, y - 1) := by
        rw [hpp, pixIdx_up]
      obtain ⟨k, h1, h2, h3, h4, h5⟩ := ih (y - 1) (pixelPos - (width : Int) * 4)
        (probes ++ [pixelPos]) (by omega) hpp1
      rw [hstep]
      refine ⟨k + 1, ?_, ?_, ?_, ?_, ?_⟩
      · rw [h1]
        push_cast
        ring
      · rw [h2]
        push_cast
        have harg : y - 1 - (k : Int) = y - ((k : Int) + 1) := by ring
        rw [harg]
      · intro j hj0 hj
        by_cases hj00 : j = 0
        · rw [hj00]
          rw [hpp] at hm
          simpa using hm
        · have := h3 (j - 1) (by omega) (by push_cast at hj ⊢; omega)
          have harg : y - 1 - (j - 1) = y - j := by ring
          rw [harg] at this
          exact this
      · rcases h4 with h4 | h4
        · left
          push_cast at h4 ⊢
          omega
        · right
          have harg : y - 1 - (k : Int) = y - ((k : Int) + 1) := by ring
          rw [harg] at h4
          push_cast
          exact h4
      · intro i hi
        rcases h5 i hi with hi2 | hi2
        · rcases List.mem_append.1 hi2 with hi3 | hi3
          · exact Or.inl hi3
          · right
            refine ⟨y, hy, le_refl y, ?_⟩
            rw [List.mem_singleton.1 hi3, hpp]
        · obtain ⟨r, hr0, hr1, hr2⟩ := hi2
          exact Or.inr ⟨r, hr0, by omega, hr2⟩
    · have hm0 : matchTolerance data bnds pixelPos = false := by
        rcases Bool.eq_false_or_eq_true (matchTolerance data bnds pixelPos) with h | h
        · exact absurd h hm
        · exact h
      have hstep : upWalk data bnds ((width : Int) * 4) (n + 1) y pixelPos probes =
          (y - 1, pixelPos, probes ++ [pixelPos]) := by
        show (if 0 ≤ y then
            if matchTolerance data bnds pixelPos then
              upWalk data bnds ((width : Int) * 4) n (y - 1) (pixelPos - (width : Int) * 4)
                (probes ++ [pixelPos])
            else (y - 1, pixelPos, probes ++ [pixelPos])
          else (y - 1, pixelPos, probes)) = _
        rw [if_pos hy, if_neg (by rw [hm0]; exact Bool.false_ne_true)]
      rw [hstep]
      refine ⟨0, ?_, ?_, ?_, ?_, ?_⟩
      · show y - 1 = y - (0 : Int) - 1
        norm_num
      · show pixelPos = pixIdx width (x, y - (0 : Int))
        rw [hpp]
        norm_num
      · intro j hj0 hj
        omega
      · right
        show matchTolerance data bnds (pixIdx width (x, y - (0 : Int))) = false
        rw [show y - (0 : Int) = y from by norm_num, ← hpp]
        exact hm0
      · intro i hi
        rcases List.mem_append.1 hi with hi | hi
        · exact Or.inl hi
        · right
          exact ⟨y, hy, le_refl y, by rw [List.mem_singleton.1 hi, hpp]⟩

/-! ## Invariant preservation through one body iteration -/

theorem validPos_def (width height : Nat) (a b : Int) :
    validPos width height (a, b) ↔
      (0 ≤ a ∧ a < (width : Int) ∧ 0 ≤ b ∧ b < (height : Int)) :=
  Iff.rfl

theorem downBodyLeft_inv (orig : List Nat) (width height : Nat) (bnds : Bounds)
    (seed : Int × Int) (hlen : orig.length = width * height * 4) (x y : Int)
    (hx : 0 ≤ x ∧ x < (width : Int)) (hy1 : -1 ≤ y) (hy2 : y < (height : Int) - 1)
    (rl : Bool) (s1 : FillState)
    (inv1 : FillInvCore orig width height bnds seed s1)
    (hreach : Reach orig width bnds seed (x, y + 1)) :
    FillInvCore orig width height bnds seed
      (downBodyLeft bnds x y (pixIdx width (x, y + 1)) rl s1).1 ∧
    (downBodyLeft bnds x y (pixIdx width (x, y + 1)) rl s1).1.data = s1.data ∧
    (downBodyLeft bnds x y (pixIdx width (x, y + 1)) rl s1).1.written = s1.written ∧
    ∃ ex : List (Int × Int),
      (downBodyLeft bnds x y (pixIdx width (x, y + 1)) rl s1).1.pixelStack =
        ex ++ s1.pixelStack ∧ ex.length ≤ 1 := by
  simp only [downBodyLeft]
  by_cases hx0 : 0 < x
  · rw [if_pos hx0]
    have hppl : pixIdx width (x, y + 1) - 4 = pixIdx width (x - 1, y + 1) :=
      (pixIdx_left width x (y + 1)).symm
    have hlv : validPos width height (x - 1, y + 1) :=
      (validPos_def width height (x - 1) (y + 1)).2 ⟨by omega, by omega, by omega, by omega⟩
    have hbounds : (0 ≤ pixIdx width (x, y + 1) - 4 ∧
        pixIdx width (x, y + 1) - 4 + 2 < (orig.length : Int)) ∨
        pixIdx width (x, y + 1) - 4 < 0 := by
      left
      constructor
      · rw [hppl]
        exact pixIdx_nonneg hlv
      · rw [hppl, hlen]
        have := pixIdx_add3_lt hlv
        omega
    have inv2 := inv1.addProbe (pixIdx width (x, y + 1) - 4) hbounds
    by_cases hml : matchTolerance s1.data bnds (pixIdx width (x, y + 1) - 4) = true
    · rw [if_pos hml]
      by_cases hrl : rl = true
      · rw [if_pos hrl]
        exact ⟨inv2, rfl, rfl, [], rfl, by simp⟩
      · rw [if_neg hrl]
        have hpre : matchTolerance orig bnds (pixIdx width (x - 1, y + 1)) = true := by
          apply inv1.preMatch_of_matchNow hlv
          rw [← hppl]
          exact hml
        have hre : Reach orig width bnds seed (x - 1, y + 1) :=
          reach_step hreach (Or.inr (Or.inl ⟨rfl, rfl⟩)) hpre
        exact ⟨inv2.push (x - 1, y + 1) hlv hre, rfl, rfl, [(x - 1, y + 1)], rfl, by simp⟩
    · rw [if_neg hml]
      exact ⟨inv2, rfl, rfl, [], rfl, by simp⟩
  · rw [if_neg hx0]
    exact ⟨inv1, rfl, rfl, [], rfl, by simp⟩

theorem downBodyRight_inv (orig : List Nat) (width height : Nat) (bnds : Bounds)
    (seed : Int × Int) (hlen : orig.length = width * height * 4) (x y : Int)
    (hx : 0 ≤ x ∧ x < (width : Int)) (hy1 : -1 ≤ y) (hy2 : y < (height : Int) - 1)
    (rl rr : Bool) (sL : FillState)
    (invL : FillInvCore orig width height bnds seed sL)
    (hreach : Reach orig width bnds seed (x, y + 1)) :
    FillInvCore orig width height bnds seed
      (downBodyRight width bnds x y (pixIdx width (x, y + 1)) rl rr sL).1 ∧
    (downBodyRight width bnds x y (pixIdx width (x, y + 1)) rl rr sL).1.data = sL.data ∧
    (downBodyRight width bnds x y (pixIdx width (x, y + 1)) rl rr sL).1.written = sL.written ∧
    ∃ ex : List (Int × Int),
      (downBodyRight width bnds x y (pixIdx width (x, y + 1)) rl rr sL).1.pixelStack =
        ex ++ sL.pixelStack ∧ ex.length ≤ 1 := by
  simp only [downBodyRight]
  by_cases hxw : x < (width : Int) - 1
  · rw [if_pos hxw]
    have hppr : pixIdx width (x, y + 1) + 4 = pixIdx width (x + 1, y + 1) :=
      (pixIdx_right width x (y + 1)).symm
    have hppd : pixIdx width (x, y + 1) + 4 - (width : Int) * 4 = pixIdx width (x + 1, y) := by
      unfold pixIdx
      ring
    have hrv : validPos width height (x + 1, y + 1) :=
      (validPos_def width height (x + 1) (y + 1)).2 ⟨by omega, by omega, by omega, by omega⟩
    have hbr : (0 ≤ pixIdx width (x, y + 1) + 4 ∧
        pixIdx width (x, y + 1) + 4 + 2 < (orig.length : Int)) ∨
        pixIdx width (x, y + 1) + 4 < 0 := by
      left
      constructor
      · rw [hppr]
        exact pixIdx_nonneg hrv
      · rw [hppr, hlen]
        have := pixIdx_add3_lt hrv
        omega
    have inv3 := invL.addProbe (pixIdx width (x, y + 1) + 4) hbr
    by_cases hmr : matchTolerance sL.data bnds (pixIdx width (x, y + 1) + 4) = true
    · rw [if_pos hmr]
      by_cases hrr : rr = true
      · rw [if_pos hrr]
        exact ⟨inv3, rfl, rfl, [], rfl, by simp⟩
      · rw [if_neg hrr]
        have hpre : matchTolerance orig bnds (pixIdx width (x + 1, y + 1)) = true := by
          apply invL.preMatch_of_matchNow hrv
          rw [← hppr]
          exact hmr
        have hre : Reach orig width bnds seed (x + 1, y + 1) :=
          reach_step hreach (Or.inl ⟨rfl, rfl⟩) hpre
        exact ⟨inv3.push (x + 1, y + 1) hrv hre, rfl, rfl, [(x + 1, y + 1)], rfl, by simp⟩
    · rw [if_neg hmr]
      have hbd : (0 ≤ pixIdx width (x, y + 1) + 4 - (width : Int) * 4 ∧
          pixIdx width (x, y + 1) + 4 - (width : Int) * 4 + 2 < (orig.length : Int)) ∨
          pixIdx width (x, y + 1) + 4 - (width : Int) * 4 < 0 := by
        by_cases hy0 : 0 ≤ y
        · left
          have hdv : validPos width height (x + 1, y) :=
            (validPos_def width height (x + 1) y).2 ⟨by omega, by omega, hy0, by omega⟩
          constructor
          · rw [hppd]
            exact pixIdx_nonneg hdv
          · rw [hppd, hlen]
            have := pixIdx_add3_lt hdv
            omega
        · right
          have hym : y = -1 := by omega
          rw [hppd, hym]
          unfold pixIdx
          simp only []
          omega
      have inv4 := inv3.addProbe (pixIdx width (x, y + 1) + 4 - (width : Int) * 4) hbd
      by_cases hmd : matchTolerance sL.data bnds
          (pixIdx width (x, y + 1) + 4 - (width : Int) * 4) = true
      · rw [if_pos hmd]
        have hy0 : 0 ≤ y := by
          by_contra hy0
          have hym : y = -1 := by omega
          have hneg : pixIdx width (x, y + 1) + 4 - (width : Int) * 4 < 0 := by
            rw [hppd, hym]
            unfold pixIdx
            simp only []
            omega
          rw [matchTolerance_eq_false_of_neg sL.data bnds _ hneg] at hmd
          exact absurd hmd (by simp)
        have hdv : validPos width height (x + 1, y) :=
          (validPos_def width height (x + 1) y).2 ⟨by omega, by omega, hy0, by omega⟩
        by_cases hrl : rl = true
        · rw [if_pos hrl]
          exact ⟨inv4, rfl, rfl, [], rfl, by simp⟩
        · rw [if_neg hrl]
          have hpre : matchTolerance orig bnds (pixIdx width (x + 1, y)) = true := by
            apply invL.preMatch_of_matchNow hdv
            rw [← hppd]
            exact hmd
          have hadj : Adj (x, y + 1) (x + 1, y) :=
            Or.inr (Or.inr (Or.inr (Or.inr ⟨rfl, by show y = y + 1 - 1; ring⟩)))
          have hre : Reach orig width bnds seed (x + 1, y) :=
            reach_step hreach hadj hpre
          exact ⟨inv4.push (x + 1, y) hdv hre, rfl, rfl, [(x + 1, y)], rfl, by simp⟩
      · rw [if_neg hmd]
        exact ⟨inv4, rfl, rfl, [], rfl, by simp⟩
  · rw [if_neg hxw]
    exact ⟨invL, rfl, rfl, [], rfl, by simp⟩

theorem downBody_inv (orig : List Nat) (width height : Nat) (bnds : Bounds)
    (seed : Int × Int) (hlen : orig.length = width * height * 4) (x y : Int)
    (hx : 0 ≤ x ∧ x < (width : Int)) (hy1 : -1 ≤ y) (hy2 : y < (height : Int) - 1)
    (rl rr : Bool) (s : FillState)
    (inv : FillInvCore orig width height bnds seed s)
    (hm : matchTolerance s.data bnds (pixIdx width (x, y + 1)) = true)
    (hreach : Reach orig width bnds seed (x, y + 1)) :
    FillInvCore orig width height bnds seed
      (downBody width bnds x y (pixIdx width (x, y + 1)) rl rr s).1 ∧
    (downBody width bnds x y (pixIdx width (x, y + 1)) rl rr s).1.data =
      zero4 s.data (pixIdx width (x, y + 1)) ∧
    (downBody width bnds x y (pixIdx width (x, y + 1)) rl rr s).1.written =
      s.written ++ [(x, y + 1)] ∧
    ∃ ex : List (Int × Int),
      (downBody width bnds x y (pixIdx width (x, y + 1)) rl rr s).1.pixelStack =
        ex ++ s.pixelStack ∧ ex.length ≤ 2 := by
  have hrow : validPos width height (x, y + 1) :=
    (validPos_def width height x (y + 1)).2 ⟨hx.1, hx.2, by omega, by omega⟩
  have hbp : (0 ≤ pixIdx width (x, y + 1) ∧
      pixIdx width (x, y + 1) + 2 < (orig.length : Int)) ∨ pixIdx width (x, y + 1) < 0 := by
    left
    refine ⟨pixIdx_nonneg hrow, ?_⟩
    rw [hlen]
    have := pixIdx_add3_lt hrow
    omega
  have inv1 : FillInvCore orig width height bnds seed
      { s with data := zero4 s.data (pixIdx width (x, y + 1)),
               written := s.written ++ [(x, y + 1)],
               probes := s.probes ++ [pixIdx width (x, y + 1)] } :=
    (FillInvCore.writeZero hlen inv (x, y + 1) hrow hm hreach).addProbe _ hbp
  obtain ⟨invL, hLd, hLw, exL, hLs, hLL⟩ :=
    downBodyLeft_inv orig width height bnds seed hlen x y hx hy1 hy2 rl
      { s with data := zero4 s.data (pixIdx width (x, y + 1)),
               written := s.written ++ [(x, y + 1)],
               probes := s.probes ++ [pixIdx width (x, y + 1)] } inv1 hreach
  obtain ⟨invR, hRd, hRw, exR, hRs, hRL⟩ :=
    downBodyRight_inv orig width height bnds seed hlen x y hx hy1 hy2
      (downBodyLeft bnds x y (pixIdx width (x, y + 1)) rl
        { s with data := zero4 s.data (pixIdx width (x, y + 1)),
                 written := s.written ++ [(x, y + 1)],
                 probes := s.probes ++ [pixIdx width (x, y + 1)] }).2 rr
      (downBodyLeft bnds x y (pixIdx width (x, y + 1)) rl
        { s with data := zero4 s.data (pixIdx width (x, y + 1)),
                 written := s.written ++ [(x, y + 1)],
                 probes := s.probes ++ [pixIdx width (x, y + 1)] }).1 invL hreach
  simp only [downBody]
  refine ⟨invR, ?_, ?_, exR ++ exL, ?_, ?_⟩
  · rw [hRd, hLd]
  · rw [hRw, hLw]
  · rw [hRs, hLs, List.append_assoc]
  · rw [List.length_append]
    omega

theorem downWalk_inv (orig : List Nat) (width height : Nat) (bnds : Bounds)
    (seed : Int × Int) (hlen : orig.length = width * height * 4) (x : Int)
    (hx : 0 ≤ x ∧ x < (width : Int)) :
    ∀ (n : Nat) (y : Int) (rl rr : Bool) (s : FillState),
      -1 ≤ y →
      FillInvCore orig width height bnds seed s →
      (matchTolerance s.data bnds (pixIdx width (x, y + 1)) = true →
        Reach orig width bnds seed (x, y + 1)) →
      FillInvCore orig width height bnds seed
        (downWalk width height bnds x n y (pixIdx width (x, y + 1)) rl rr s) ∧
      ∀ p ∈ s.written,
        p ∈ (downWalk width height bnds x n y (pixIdx width (x, y + 1)) rl rr s).written := by
  intro n
  induction n with
  | zero =>
    intro y rl rr s hy inv hreach
    exact ⟨inv, fun p hp => hp⟩
  | succ n ih =>
    intro y rl rr s hy inv hreach
    simp only [downWalk]
    by_cases hg : y < (height : Int) - 1
    · rw [if_pos hg]
      by_cases hm : matchTolerance s.data bnds (pixIdx width (x, y + 1)) = true
      · rw [if_pos hm]
        have hreA : Reach orig width bnds seed (x, y + 1) := hreach hm
        obtain ⟨invB, hBd, hBw, exB, hBs, hBL⟩ :=
          downBody_inv orig width height bnds seed hlen x y hx hy hg rl rr s inv hm hreA
        have hdown : pixIdx width (x, y + 1) + (width : Int) * 4 =
            pixIdx width (x, y + 1 + 1) := by
          unfold pixIdx
          ring
        rw [hdown]
        have hreach2 : matchTolerance
            (downBody width bnds x y (pixIdx width (x, y + 1)) rl rr s).1.data bnds
            (pixIdx width (x, y + 1 + 1)) = true →
            Reach orig width bnds seed (x, y + 1 + 1) := by
          intro hm2
          by_cases hval : validPos width height (x, y + 1 + 1)
          · have hpre := invB.preMatch_of_matchNow hval hm2
            have hbase : Reach orig width bnds seed (x, y + 1) := by
              apply invB.writtenReach (x, y + 1)
              rw [hBw]
              exact List.mem_append_right _ (List.mem_singleton_self _)
            exact reach_step hbase (Or.inr (Or.inr (Or.inl ⟨rfl, rfl⟩))) hpre
          · have hge : (height : Int) ≤ y + 1 + 1 := by
              by_contra hcon
              exact hval ((validPos_def width height x (y + 1 + 1)).2
                ⟨hx.1, hx.2, by omega, by omega⟩)
            have hidx : ((downBody width bnds x y (pixIdx width (x, y + 1)) rl rr
                s).1.data.length : Int) ≤ pixIdx width (x, y + 1 + 1) := by
              rw [invB.len_eq, hlen]
              unfold pixIdx
              push_cast
              have h2 : (height : Int) * (width : Int) ≤ (y + 1 + 1) * (width : Int) :=
                mul_le_mul_of_nonneg_right hge (by positivity)
              nlinarith
            rw [matchTolerance_eq_false_of_ge _ _ _ hidx] at hm2
            exact absurd hm2 (by simp)
        obtain ⟨invF, hmono⟩ := ih (y + 1)
          (downBody width bnds x y (pixIdx width (x, y + 1)) rl rr s).2.1
          (downBody width bnds x y (pixIdx width (x, y + 1)) rl rr s).2.2
          (downBody width bnds x y (pixIdx width (x, y + 1)) rl rr s).1
          (by omega) invB hreach2
        refine ⟨invF, ?_⟩
        intro p hp
        apply hmono
        rw [hBw]
        exact List.mem_append_left _ hp
      · rw [if_neg hm]
        have hrow : validPos width height (x, y + 1) :=
          (validPos_def width height x (y + 1)).2 ⟨hx.1, hx.2, by omega, by omega⟩
        refine ⟨inv.addProbe _ (Or.inl ⟨pixIdx_nonneg hrow, ?_⟩), fun p hp => hp⟩
        rw [hlen]
        have := pixIdx_add3_lt hrow
        omega
    · rw [if_neg hg]
      exact ⟨inv, fun p hp => hp⟩

/-! ## Coverage of the scanned column run -/

theorem downBody_shape (width : Nat) (bnds : Bounds) (x y pixelPos : Int) (rl rr : Bool)
    (s : FillState) :
    (downBody width bnds x y pixelPos rl rr s).1.data = zero4 s.data pixelPos ∧
    (downBody width bnds x y pixelPos rl rr s).1.written = s.written ++ [(x, y + 1)] := by
  simp only [downBody, downBodyLeft, downBodyRight]
  split_ifs <;> exact ⟨rfl, rfl⟩

theorem downWalk_written_mono (width height : Nat) (bnds : Bounds) (x : Int) :
    ∀ (n : Nat) (y pixelPos : Int) (rl rr : Bool) (s : FillState),
      ∀ p ∈ s.written, p ∈ (downWalk width height bnds x n y pixelPos rl rr s).written := by
  intro n
  induction n with
  | zero =>
    intro y pixelPos rl rr s p hp
    exact hp
  | succ n ih =>
    intro y pixelPos rl rr s p hp
    simp only [downWalk]
    by_cases hg : y < (height : Int) - 1
    · rw [if_pos hg]
      by_cases hm : matchTolerance s.data bnds pixelPos = true
      · rw [if_pos hm]
        apply ih
        rw [(downBody_shape width bnds x y pixelPos rl rr s).2]
        exact List.mem_append_left _ hp
      · rw [if_neg hm]
        exact hp
    · rw [if_neg hg]
      exact hp

theorem downWalk_covers (width height : Nat) (bnds : Bounds) (x : Int) :
    ∀ (n : Nat) (y : Int) (rl rr : Bool) (s : FillState) (r : Int),
      n = ((height : Int) - 1 - y).toNat →
      0 ≤ x → x < (width : Int) → -1 ≤ y →
      y + 1 ≤ r → r ≤ (height : Int) - 1 →
      (∀ r' : Int, y + 1 ≤ r' → r' ≤ r →
        matchTolerance s.data bnds (pixIdx width (x, r')) = true) →
      (x, r) ∈ (downWalk width height bnds x n y (pixIdx width (x, y + 1)) rl rr s).written := by
  intro n
  induction n with
  | zero =>
    intro y rl rr s r hn hx0 hxw hy hr1 hr2 hmatch
    omega
  | succ n ih =>
    intro y rl rr s r hn hx0 hxw hy hr1 hr2 hmatch
    have hg : y < (height : Int) - 1 := by omega
    have hm : matchTolerance s.data bnds (pixIdx width (x, y + 1)) = true :=
      hmatch (y + 1) (le_refl _) (by omega)
    simp only [downWalk]
    rw [if_pos hg, if_pos hm]
    obtain ⟨hBd, hBw⟩ := downBody_shape width bnds x y (pixIdx width (x, y + 1)) rl rr s
    have hdown : pixIdx width (x, y + 1) + (width : Int) * 4 =
        pixIdx width (x, y + 1 + 1) := by
      unfold pixIdx
      ring
    rw [hdown]
    by_cases hr : r = y + 1
    · apply downWalk_written_mono
      rw [hBw, hr]
      exact List.mem_append_right _ (List.mem_singleton_self _)
    · apply ih (y + 1) _ _ _ r (by omega) hx0 hxw (by omega) (by omega) hr2
      intro r' hr'1 hr'2
      rw [hBd]
      have hpv : validPos width height (x, r') :=
        (validPos_def width height x r').2 ⟨hx0, hxw, by omega, by omega⟩
      have hqv : validPos width height (x, y + 1) :=
        (validPos_def width height x (y + 1)).2 ⟨hx0, hxw, by omega, by omega⟩
      have hne : (x, r') ≠ (x, y + 1) :=
        fun hcc => absurd (congrArg Prod.snd hcc) (by simp; omega)
      rw [matchTolerance_zero4_other s.data bnds hpv hqv hne]
      exact hmatch r' (by omega) hr'2

/-! ## One outer-loop iteration preserves the invariant -/

theorem reach_target_match {orig : List Nat} {width : Nat} {bnds : Bounds}
    {seed t : Int × Int}
    (hseedmatch : matchTolerance orig bnds (pixIdx width seed) = true)
    (h : Reach orig width bnds seed t) :
    matchTolerance orig bnds (pixIdx width t) = true := by
  rcases Relation.ReflTransGen.cases_tail h with heq | ⟨c, _, hstep⟩
  · rw [heq]
    exact hseedmatch
  · exact hstep.2

theorem row_nonneg_of_match {width : Nat} {data : List Nat} {bnds : Bounds} {x r : Int}
    (hx0 : 0 ≤ x) (hxw : x < (width : Int))
    (h : matchTolerance data bnds (pixIdx width (x, r)) = true) : 0 ≤ r := by
  have hb := (matchTolerance_true_bounds h).1
  unfold pixIdx at hb
  by_contra hr
  have hr1 : r ≤ -1 := by omega
  have h2 : r * (width : Int) ≤ (-1) * (width : Int) :=
    mul_le_mul_of_nonneg_right hr1 (by positivity)
  simp only [] at hb
  nlinarith

theorem FillInvCore.pop {orig : List Nat} {width height : Nat} {bnds : Bounds}
    {seed : Int × Int} {s : FillState}
    (inv : FillInvCore orig width height bnds seed s) (q : Int × Int)
    (rest : List (Int × Int)) (hstack : s.pixelStack = q :: rest) :
    FillInvCore orig width height bnds seed { s with pixelStack := rest } := by
  refine ⟨inv.len_eq, ?_, ?_, inv.writtenValid, inv.writtenMatch, inv.writtenReach,
    inv.dataOld, inv.dataZero, inv.probesOk⟩
  · intro q' hq'
    exact inv.stackValid q' (by rw [hstack]; exact List.mem_cons_of_mem q hq')
  · intro q' hq'
    exact inv.stackReach q' (by rw [hstack]; exact List.mem_cons_of_mem q hq')

theorem FillInvCore.setProbes {orig : List Nat} {width height : Nat} {bnds : Bounds}
    {seed : Int × Int} {s : FillState}
    (inv : FillInvCore orig width height bnds seed s) (pr : List Int)
    (hpr : ∀ i ∈ pr, (0 ≤ i ∧ i + 2 < (orig.length : Int)) ∨ i < 0) :
    FillInvCore orig width height bnds seed { s with probes := pr } :=
  ⟨inv.len_eq, inv.stackValid, inv.stackReach, inv.writtenValid, inv.writtenMatch,
    inv.writtenReach, inv.dataOld, inv.dataZero, hpr⟩

theorem processPixel_inv (orig : List Nat) (width height : Nat) (bnds : Bounds)
    (seed : Int × Int) (hlen : orig.length = width * height * 4)
    (hseedmatch : matchTolerance orig bnds (pixIdx width seed) = true)
    (q : Int × Int) (rest : List (Int × Int)) (s : FillState)
    (hstack : s.pixelStack = q :: rest)
    (inv : FillInv orig width height bnds seed s) :
    FillInv orig width height bnds seed
      (processPixel width height bnds q.1 q.2 { s with pixelStack := rest }) := by
  have hqmem : q ∈ s.pixelStack := by
    rw [hstack]
    exact List.mem_cons_self q rest
  have hqv := inv.toFillInvCore.stackValid q hqmem
  have hqreach := inv.toFillInvCore.stackReach q hqmem
  obtain ⟨hqx0, hqxw, hqy0, hqyh⟩ := id hqv
  have core1 : FillInvCore orig width height bnds seed { s with pixelStack := rest } :=
    inv.toFillInvCore.pop q rest hstack
  obtain ⟨k, h1, h2, h3, h4, h5⟩ := upWalk_spec s.data bnds width q.1 ((q.2 + 1).toNat) q.2
    (pixIdx width (q.1, q.2)) s.probes rfl rfl
  have heq : processPixel width height bnds q.1 q.2 { s with pixelStack := rest } =
      downWalk width height bnds q.1
        (((height : Int) - 1 -
          ((upWalk s.data bnds ((width : Int) * 4) ((q.2 + 1).toNat) q.2
            (pixIdx width (q.1, q.2)) s.probes).1 + 1)).toNat)
        ((upWalk s.data bnds ((width : Int) * 4) ((q.2 + 1).toNat) q.2
          (pixIdx width (q.1, q.2)) s.probes).1 + 1)
        ((upWalk s.data bnds ((width : Int) * 4) ((q.2 + 1).toNat) q.2
          (pixIdx width (q.1, q.2)) s.probes).2.1 + (width : Int) * 4)
        false false
        { s with pixelStack := rest,
                 probes := (upWalk s.data bnds ((width : Int) * 4) ((q.2 + 1).toNat) q.2
                   (pixIdx width (q.1, q.2)) s.probes).2.2 } := rfl
  rw [heq, h1, h2]
  have e1 : q.2 - (k : Int) - 1 + 1 = q.2 - (k : Int) := by ring
  rw [e1]
  have e2 : pixIdx width (q.1, q.2 - (k : Int)) + (width : Int) * 4 =
      pixIdx width (q.1, q.2 - (k : Int) + 1) := by
    unfold pixIdx
    ring
  rw [e2]
  have hyEntry : -1 ≤ q.2 - (k : Int) := by
    rcases Nat.eq_zero_or_pos k with hk0 | hkpos
    · subst hk0
      push_cast
      omega
    · have hmk := h3 ((k : Int) - 1) (by push_cast; omega) (by omega)
      have := row_nonneg_of_match hqx0 hqxw hmk
      omega
  have invS : FillInvCore orig width height bnds seed
      { s with pixelStack := rest,
               probes := (upWalk s.data bnds ((width : Int) * 4) ((q.2 + 1).toNat) q.2
                 (pixIdx width (q.1, q.2)) s.probes).2.2 } := by
    apply core1.setProbes
    intro i hi
    rcases h5 i hi with hi2 | ⟨r, hr0, hr1, hr2⟩
    · exact inv.toFillInvCore.probesOk i hi2
    · left
      have hrv : validPos width height (q.1, r) :=
        (validPos_def width height q.1 r).2 ⟨hqx0, hqxw, hr0, by omega⟩
      constructor
      · rw [hr2]
        exact pixIdx_nonneg hrv
      · rw [hr2, hlen]
        have := pixIdx_add3_lt hrv
        omega
  have hchain : ∀ j : Nat, (j : Int) < (k : Int) →
      Reach orig width bnds seed (q.1, q.2 - (j : Int)) := by
    intro j
    induction j with
    | zero =>
      intro _
      push_cast
      rw [show q.2 - 0 = q.2 from by ring]
      exact hqreach
    | succ j ihj =>
      intro hj
      have hprev := ihj (by push_cast at hj ⊢; omega)
      have hm' := h3 ((j : Int) + 1) (by positivity) (by push_cast at hj ⊢; omega)
      have hrow0 := row_nonneg_of_match hqx0 hqxw hm'
      have hrvv : validPos width height (q.1, q.2 - ((j : Int) + 1)) :=
        (validPos_def width height q.1 (q.2 - ((j : Int) + 1))).2
          ⟨hqx0, hqxw, hrow0, by omega⟩
      have hpre : matchTolerance orig bnds
          (pixIdx width (q.1, q.2 - ((j : Int) + 1))) = true :=
        core1.preMatch_of_matchNow hrvv hm'
      have hadj : Adj (q.1, q.2 - (j : Int)) (q.1, q.2 - ((j : Int) + 1)) :=
        Or.inr (Or.inr (Or.inr (Or.inl ⟨rfl, by
          show q.2 - ((j : Int) + 1) = q.2 - (j : Int) - 1
          ring⟩)))
      have := reach_step hprev hadj hpre
      rw [show ((j + 1 : Nat) : Int) = (j : Int) + 1 from by push_cast; ring]
      exact this
  have hreachEntry : matchTolerance
      ({ s with pixelStack := rest,
                probes := (upWalk s.data bnds ((width : Int) * 4) ((q.2 + 1).toNat) q.2
                  (pixIdx width (q.1, q.2)) s.probes).2.2 } : FillState).data bnds
      (pixIdx width (q.1, q.2 - (k : Int) + 1)) = true →
      Reach orig width bnds seed (q.1, q.2 - (k : Int) + 1) := by
    intro hm2
    rcases Nat.eq_zero_or_pos k with hk0 | hkpos
    · subst hk0
      by_cases hval : validPos width height (q.1, q.2 - ((0 : Nat) : Int) + 1)
      · have hpre := invS.preMatch_of_matchNow hval hm2
        exact reach_step hqreach
          (Or.inr (Or.inr (Or.inl ⟨rfl, by
            show q.2 - ((0 : Nat) : Int) + 1 = q.2 + 1
            push_cast
            ring⟩))) hpre
      · exfalso
        have hge : (height : Int) ≤ q.2 - ((0 : Nat) : Int) + 1 := by
          by_contra hcon
          exact hval ((validPos_def width height q.1 (q.2 - ((0 : Nat) : Int) + 1)).2
            ⟨hqx0, hqxw, by push_cast; omega, by omega⟩)
        have hidx : ((s.data.length : Nat) : Int) ≤
            pixIdx width (q.1, q.2 - ((0 : Nat) : Int) + 1) := by
          rw [inv.toFillInvCore.len_eq, hlen]
          unfold pixIdx
          push_cast
          have h2' : (height : Int) * (width : Int) ≤
              (q.2 - ((0 : Nat) : Int) + 1) * (width : Int) :=
            mul_le_mul_of_nonneg_right hge (by positivity)
          push_cast at h2'
          nlinarith
        rw [matchTolerance_eq_false_of_ge _ _ _ hidx] at hm2
        exact absurd hm2 (by simp)
    · have hstep := hchain (k - 1) (by push_cast; omega)
      have ecast : ((k - 1 : Nat) : Int) = (k : Int) - 1 := by omega
      rw [ecast] at hstep
      rw [show q.2 - ((k : Int) - 1) = q.2 - (k : Int) + 1 from by ring] at hstep
      exact hstep
  obtain ⟨invF, hmono⟩ := downWalk_inv orig width height bnds seed hlen q.1 ⟨hqx0, hqxw⟩
    (((height : Int) - 1 - (q.2 - (k : Int))).toNat) (q.2 - (k : Int)) false false
    { s with pixelStack := rest,
             probes := (upWalk s.data bnds ((width : Int) * 4) ((q.2 + 1).toNat) q.2
               (pixIdx width (q.1, q.2)) s.probes).2.2 }
    hyEntry invS hreachEntry
  refine ⟨invF, ?_⟩
  rcases inv.seedOk with ⟨hst, hwr⟩ | hsw
  · right
    rw [hstack] at hst
    injection hst with hq_seed hrest
    have hmq : matchTolerance s.data bnds (pixIdx width (q.1, q.2)) = true := by
      have hgp := inv.toFillInvCore.dataOld q hqv (by rw [hwr]; exact List.not_mem_nil q)
      have := matchTolerance_eq_of_getPixel bnds hgp
      rw [this]
      rw [hq_seed]
      exact hseedmatch
    have hk1 : 1 ≤ k := by
      by_contra hk
      have hk0 : k = 0 := by omega
      subst hk0
      rcases h4 with h4 | h4
      · push_cast at h4
        omega
      · rw [show q.2 - ((0 : Nat) : Int) = q.2 from by push_cast; ring] at h4
        rw [hmq] at h4
        exact absurd h4 (by simp)
    have hmatchrun : ∀ r' : Int, q.2 - (k : Int) + 1 ≤ r' → r' ≤ q.2 →
        matchTolerance
          ({ s with pixelStack := rest,
                    probes := (upWalk s.data bnds ((width : Int) * 4) ((q.2 + 1).toNat) q.2
                      (pixIdx width (q.1, q.2)) s.probes).2.2 } : FillState).data bnds
          (pixIdx width (q.1, r')) = true := by
      intro r' hr'1 hr'2
      have := h3 (q.2 - r') (by omega) (by omega)
      rw [show q.2 - (q.2 - r') = r' from by ring] at this
      exact this
    have hcov := downWalk_covers width height bnds q.1
      (((height : Int) - 1 - (q.2 - (k : Int))).toNat) (q.2 - (k : Int)) false false
      { s with pixelStack := rest,
               probes := (upWalk s.data bnds ((width : Int) * 4) ((q.2 + 1).toNat) q.2
                 (pixIdx width (q.1, q.2)) s.probes).2.2 }
      q.2 rfl hqx0 hqxw hyEntry (by omega) (by omega) hmatchrun
    rw [← hq_seed]
    exact hcov
  · exact Or.inr (hmono seed hsw)

/-! ## The invariant along the whole run -/

theorem fillRun_inv (orig : List Nat) (width height : Nat) (bnds : Bounds)
    (seed : Int × Int) (hlen : orig.length = width * height * 4)
    (hseedmatch : matchTolerance orig bnds (pixIdx width seed) = true) :
    ∀ (fuel : Nat) (s : FillState),
      FillInv orig width height bnds seed s →
      FillInv orig width height bnds seed (fillRun width height bnds fuel s) := by
  intro fuel
  induction fuel with
  | zero =>
    intro s inv
    exact inv
  | succ fuel ih =>
    intro s inv
    simp only [fillRun]
    cases hstack : s.pixelStack with
    | nil => exact inv
    | cons q rest =>
      exact ih _ (processPixel_inv orig width height bnds seed hlen hseedmatch
        q rest s hstack inv)

theorem fillInv_init (orig : List Nat) (width height : Nat) (bnds : Bounds)
    (seed : Int × Int) (hlen : orig.length = width * height * 4)
    (hseedval : validPos width height seed) :
    FillInv orig width height bnds seed
      { data := orig, pixelStack := [seed], written := [],
        probes := [pixIdx width seed], pushes := 1 } := by
  refine ⟨⟨rfl, ?_, ?_, ?_, ?_, ?_, ?_, ?_, ?_⟩, Or.inl ⟨rfl, rfl⟩⟩
  · intro q hq
    rw [List.mem_singleton.1 hq]
    exact hseedval
  · intro q hq
    rw [List.mem_singleton.1 hq]
    exact Relation.ReflTransGen.refl
  · intro p hp
    exact absurd hp (List.not_mem_nil p)
  · intro p hp
    exact absurd hp (List.not_mem_nil p)
  · intro p hp
    exact absurd hp (List.not_mem_nil p)
  · intro p _ _
    rfl
  · intro p hp
    exact absurd hp (List.not_mem_nil p)
  · intro i hi
    rw [List.mem_singleton.1 hi]
    left
    refine ⟨pixIdx_nonneg hseedval, ?_⟩
    rw [hlen]
    have := pixIdx_add3_lt hseedval
    omega

theorem channel_self (a : Nat) (t : ℚ) (ht : 0 ≤ t) :
    ((a : ℚ) ≥ (a : ℚ) * (1 - t)) ∧ ((a : ℚ) ≤ (a : ℚ) * (1 + t)) := by
  have ha : (0 : ℚ) ≤ (a : ℚ) := Nat.cast_nonneg a
  constructor <;> nlinarith [mul_nonneg ha ht]

theorem seed_self_match (data : List Nat) (width height : Nat) (p : Int × Int) (t : ℚ)
    (hlen : data.length = width * height * 4) (hp : validPos width height p) (ht : 0 ≤ t) :
    matchTolerance data (mkBounds data (pixIdx width p) t) (pixIdx width p) = true := by
  have h0 : 0 ≤ pixIdx width p := pixIdx_nonneg hp
  have h3 : pixIdx width p + 3 < (data.length : Int) := by
    rw [hlen]
    exact pixIdx_add3_lt hp
  have e0 : jsRead data (pixIdx width p) = some (data[(pixIdx width p).toNat]) :=
    jsRead_eq_getElem _ _ h0 (by omega)
  have e1 : jsRead data (pixIdx width p + 1) =
      some (data[(pixIdx width p + 1).toNat]) :=
    jsRead_eq_getElem _ _ (by omega) (by omega)
  have e2 : jsRead data (pixIdx width p + 2) =
      some (data[(pixIdx width p + 2).toNat]) :=
    jsRead_eq_getElem _ _ (by omega) (by omega)
  unfold matchTolerance mkBounds
  rw [e0, e1, e2]
  simp only [Option.getD_some]
  unfold matchChannels
  simp only [Bool.and_eq_true, decide_eq_true_eq]
  exact ⟨⟨⟨⟨⟨(channel_self _ t ht).1, (channel_self _ t ht).2⟩,
    (channel_self _ t ht).1⟩, (channel_self _ t ht).2⟩,
    (channel_self _ t ht).1⟩, (channel_self _ t ht).2⟩

theorem floodFill_inv (x y : Int) (width height : Nat) (tolerance : ℚ) (data : List Nat)
    (fuel : Nat) (hlen : data.length = width * height * 4)
    (hx : 0 ≤ x ∧ x < (width : Int)) (hy : 0 ≤ y ∧ y < (height : Int))
    (ht : 0 ≤ tolerance) :
    FillInv data width height (mkBounds data (pixIdx width (x, y)) tolerance) (x, y)
      (floodFill x y width height tolerance data fuel) := by
  have hseedval : validPos width height (x, y) :=
    (validPos_def width height x y).2 ⟨hx.1, hx.2, hy.1, hy.2⟩
  have hseedmatch := seed_self_match data width height (x, y) tolerance hlen hseedval ht
  exact fillRun_inv data width height _ (x, y) hlen hseedmatch fuel _
    (fillInv_init data width height _ (x, y) hlen hseedval)

/-! ## Claim theorems extracted from the invariant -/

/-- C3: for every valid input, if the fill returns (empty stack), the set
of pixels it zeroed contains the seed, and every zeroed pixel satisfied
the bounds predicate in the pre-fill buffer and is connected to the seed
through a chain of bounds-satisfying pixels (4-connected with the
(x+1,y-1) diagonal reattachment). -/
theorem c3_containment (x y : Int) (width height : Nat) (tolerance : ℚ) (data : List Nat)
    (fuel : Nat) (hlen : data.length = width * height * 4)
    (hx : 0 ≤ x ∧ x < (width : Int)) (hy : 0 ≤ y ∧ y < (height : Int)) (ht : 0 ≤ tolerance)
    (hterm : (floodFill x y width height tolerance data fuel).pixelStack = []) :
    (x, y) ∈ (floodFill x y width height tolerance data fuel).written ∧
    ∀ p ∈ (floodFill x y width height tolerance data fuel).written,
      matchTolerance data (mkBounds data (pixIdx width (x, y)) tolerance)
        (pixIdx width p) = true ∧
      Reach data width (mkBounds data (pixIdx width (x, y)) tolerance) (x, y) p := by
  have inv := floodFill_inv x y width height tolerance data fuel hlen hx hy ht
  refine ⟨?_, fun p hp => ⟨inv.toFillInvCore.writtenMatch p hp,
    inv.toFillInvCore.writtenReach p hp⟩⟩
  rcases inv.seedOk with ⟨hst, _⟩ | hsw
  · rw [hterm] at hst
    exact absurd hst (by simp)
  · exact hsw

/-- C4: for every valid input, when the fill returns, every valid pixel
outside the diagonally-augmented connected matching region keeps exactly
its original RGBA bytes. -/
theorem c4_untouched_exterior (x y : Int) (width height : Nat) (tolerance : ℚ)
    (data : List Nat) (fuel : Nat) (hlen : data.length = width * height * 4)
    (hx : 0 ≤ x ∧ x < (width : Int)) (hy : 0 ≤ y ∧ y < (height : Int)) (ht : 0 ≤ tolerance)
    (hterm : (floodFill x y width height tolerance data fuel).pixelStack = [])
    (p : Int × Int) (hpv : validPos width height p)
    (hnr : ¬ Reach data width (mkBounds data (pixIdx width (x, y)) tolerance) (x, y) p) :
    getPixel (floodFill x y width height tolerance data fuel).data width p =
      getPixel data width p := by
  have inv := floodFill_inv x y width height tolerance data fuel hlen hx hy ht
  apply inv.toFillInvCore.dataOld p hpv
  intro hw
  exact hnr (inv.toFillInvCore.writtenReach p hw)

/-- C10: for every valid input and valid pixel position, after the fill
the pixel holds either its original RGBA bytes or exactly (0,0,0,0). -/
theorem c10_zero_or_original (x y : Int) (width height : Nat) (tolerance : ℚ)
    (data : List Nat) (fuel : Nat) (hlen : data.length = width * height * 4)
    (hx : 0 ≤ x ∧ x < (width : Int)) (hy : 0 ≤ y ∧ y < (height : Int)) (ht : 0 ≤ tolerance)
    (p : Int × Int) (hpv : validPos width height p) :
    getPixel (floodFill x y width height tolerance data fuel).data width p =
      getPixel data width p ∨
    getPixel (floodFill x y width height tolerance data fuel).data width p = zeroPixel := by
  have inv := floodFill_inv x y width height tolerance data fuel hlen hx hy ht
  by_cases hw : p ∈ (floodFill x y width height tolerance data fuel).written
  · exact Or.inr (inv.toFillInvCore.dataZero p hw)
  · exact Or.inl (inv.toFillInvCore.dataOld p hpv hw)

/-- C9 amended: every index passed to `matchTolerance` during a fill on a
valid input is either fully in bounds (room for the three byte reads) or
negative; the negative case is the top-row diagonal reattachment test,
whose reads yield undefined and make the match false. -/
theorem c9_reads_amended (x y : Int) (width height : Nat) (tolerance : ℚ)
    (data : List Nat) (fuel : Nat) (hlen : data.length = width * height * 4)
    (hx : 0 ≤ x ∧ x < (width : Int)) (hy : 0 ≤ y ∧ y < (height : Int)) (ht : 0 ≤ tolerance)
    (i : Int) (hi : i ∈ (floodFill x y width height tolerance data fuel).probes) :
    (0 ≤ i ∧ i + 2 < ((width * height * 4 : Nat) : Int)) ∨ i < 0 := by
  have inv := floodFill_inv x y width height tolerance data fuel hlen hx hy ht
  rcases inv.toFillInvCore.probesOk i hi with ⟨h1, h2⟩ | h
  · left
    refine ⟨h1, ?_⟩
    rw [hlen] at h2
    exact h2
  · right
    exact h

theorem c3_containment_witness :
    ((0, 0) ∈ (floodFill 0 0 4 4 (1/20) bufUniform 40).written) ∧
    ((1, 0) ∈ (floodFill 0 0 4 4 (1/20) bufUniform 40).written →
      matchTolerance bufUniform (mkBounds bufUniform (pixIdx 4 (0, 0)) (1/20))
        (pixIdx 4 (1, 0)) = true ∧
      Reach bufUniform 4 (mkBounds bufUniform (pixIdx 4 (0, 0)) (1/20)) (0, 0) (1, 0)) := by
  have h := c3_containment 0 0 4 4 (1/20) bufUniform 40 (by decide) (by decide) (by decide)
    (by norm_num) (by unfold floodFill; rw [mkBounds_eval_uniform]; decide)
  exact ⟨h.1, fun hm => h.2 (1, 0) hm⟩

theorem c4_untouched_exterior_witness :
    getPixel (floodFill 0 0 4 4 (1/20) bufChecker 40).data 4 (1, 0) =
      getPixel bufChecker 4 (1, 0) := by
  have hb : mkBounds bufChecker (pixIdx 4 ((0 : Int), (0 : Int))) (1/20) =
      ⟨210, 210, 210, 190, 190, 190⟩ := by
    rw [show pixIdx 4 ((0 : Int), (0 : Int)) = (((0 : Int) * (4 : Nat) + 0) * 4) from rfl]
    exact mkBounds_eval_checker
  apply c4_untouched_exterior 0 0 4 4 (1/20) bufChecker 40 (by decide) (by decide)
    (by decide) (by norm_num) ?hterm (1, 0) (by decide) ?hnr
  case hterm =>
    unfold floodFill
    rw [mkBounds_eval_checker]
    decide
  case hnr =>
    intro hre
    have hm := reach_target_match (by rw [hb]; decide) hre
    rw [hb] at hm
    exact absurd hm (by decide)

theorem c10_zero_or_original_witness :
    getPixel (floodFill 0 0 4 4 (1/20) bufChecker 40).data 4 (2, 0) =
      getPixel bufChecker 4 (2, 0) ∨
    getPixel (floodFill 0 0 4 4 (1/20) bufChecker 40).data 4 (2, 0) = zeroPixel :=
  c10_zero_or_original 0 0 4 4 (1/20) bufChecker 40 (by decide) (by decide) (by decide)
    (by norm_num) (2, 0) (by decide)

theorem c9_reads_witness :
    (0 ≤ (-12 : Int) ∧ (-12 : Int) + 2 < ((4 * 4 * 4 : Nat) : Int)) ∨ (-12 : Int) < 0 :=
  c9_reads_amended 0 0 4 4 (1/20) bufChecker 40 (by decide) (by decide) (by decide)
    (by norm_num) (-12)
    (by unfold floodFill; rw [mkBounds_eval_checker]; decide)

/-! ## Monotonicity of the bounds predicate in the tolerance -/

theorem channel_mono (c v t1 t2 : ℚ) (hc : 0 ≤ c) (ht12 : t1 ≤ t2)
    (h1 : v ≥ c * (1 - t1)) (h2 : v ≤ c * (1 + t1)) :
    v ≥ c * (1 - t2) ∧ v ≤ c * (1 + t2) := by
  constructor <;> nlinarith [mul_nonneg hc (show (0 : ℚ) ≤ t2 - t1 from by linarith)]

/-- C5 amended: the per-pixel bounds predicate derived from the same seed
pixel is monotone in the tolerance: a colour satisfying the bounds at
tolerance `t1 ≤ t2` also satisfies them at `t2`. -/
theorem c5_match_monotone (orig data : List Nat) (sp : Int) (t1 t2 : ℚ)
    (ht1 : 0 ≤ t1) (ht12 : t1 ≤ t2) (i : Int)
    (h : matchTolerance data (mkBounds orig sp t1) i = true) :
    matchTolerance data (mkBounds orig sp t2) i = true := by
  obtain ⟨r, g, b, e0, e1, e2, hch⟩ := matchTolerance_true_reads h
  unfold matchTolerance
  rw [e0, e1, e2]
  unfold matchChannels mkBounds at hch ⊢
  simp only [Bool.and_eq_true, decide_eq_true_eq] at hch ⊢
  obtain ⟨⟨⟨⟨⟨h1, h2⟩, h3⟩, h4⟩, h5⟩, h6⟩ := hch
  have m1 := channel_mono _ _ t1 t2 (Nat.cast_nonneg _) ht12 h1 h2
  have m2 := channel_mono _ _ t1 t2 (Nat.cast_nonneg _) ht12 h3 h4
  have m3 := channel_mono _ _ t1 t2 (Nat.cast_nonneg _) ht12 h5 h6
  exact ⟨⟨⟨⟨⟨m1.1, m1.2⟩, m2.1⟩, m2.2⟩, m3.1⟩, m3.2⟩

theorem c5_match_monotone_witness :
    matchTolerance bufMono (mkBounds bufMono (((0 : Int) * (3 : Nat) + 1) * 4) (1/20))
      (pixIdx 3 (1, 0)) = true :=
  c5_match_monotone bufMono bufMono (((0 : Int) * (3 : Nat) + 1) * 4) (1/100) (1/20)
    (by norm_num) (by norm_num) (pixIdx 3 (1, 0))
    (by rw [mkBounds_eval_mono100]; decide)

/-! ## Second-run containment (amended idempotence) -/

theorem match_zero_bounds (orig1 d2 : List Nat) (sp : Int) (t : ℚ)
    (hz0 : jsRead orig1 sp = some 0) (hz1 : jsRead orig1 (sp + 1) = some 0)
    (hz2 : jsRead orig1 (sp + 2) = some 0) (i : Int)
    (h : matchTolerance d2 (mkBounds orig1 sp t) i = true) :
    jsRead d2 i = some 0 ∧ jsRead d2 (i + 1) = some 0 ∧ jsRead d2 (i + 2) = some 0 := by
  obtain ⟨r, g, b, e0, e1, e2, hch⟩ := matchTolerance_true_reads h
  unfold matchChannels mkBounds at hch
  rw [hz0, hz1, hz2] at hch
  simp only [Option.getD_some, Nat.cast_zero, zero_mul, Bool.and_eq_true,
    decide_eq_true_eq] at hch
  obtain ⟨⟨⟨⟨⟨h1, h2⟩, h3⟩, h4⟩, h5⟩, h6⟩ := hch
  have hr : r = 0 := by exact_mod_cast le_antisymm h2 (Nat.cast_nonneg r)
  have hg : g = 0 := by exact_mod_cast le_antisymm h4 (Nat.cast_nonneg g)
  have hb : b = 0 := by exact_mod_cast le_antisymm h6 (Nat.cast_nonneg b)
  rw [hr] at e0
  rw [hg] at e1
  rw [hb] at e2
  exact ⟨e0, e1, e2⟩

/-- C6 amended: if the first fill returned and every pixel whose RGB is
(0,0,0) in the post-first-fill buffer was zeroed by the first run, then a
second fill with the same seed and tolerance only zeroes pixels the first
run zeroed — it never expands beyond the first region, for any fuel. -/
theorem c6_idempotent_amended (x y : Int) (width height : Nat) (t : ℚ) (data : List Nat)
    (fuel1 : Nat) (hlen : data.length = width * height * 4)
    (hx : 0 ≤ x ∧ x < (width : Int)) (hy : 0 ≤ y ∧ y < (height : Int)) (ht : 0 ≤ t)
    (hterm1 : (floodFill x y width height t data fuel1).pixelStack = [])
    (H : ∀ a : Nat, a < width → ∀ b : Nat, b < height →
      jsRead (floodFill x y width height t data fuel1).data
        (pixIdx width ((a : Int), (b : Int))) = some 0 →
      jsRead (floodFill x y width height t data fuel1).data
        (pixIdx width ((a : Int), (b : Int)) + 1) = some 0 →
      jsRead (floodFill x y width height t data fuel1).data
        (pixIdx width ((a : Int), (b : Int)) + 2) = some 0 →
      ((a : Int), (b : Int)) ∈ (floodFill x y width height t data fuel1).written)
    (fuel2 : Nat) (p : Int × Int)
    (hp2 : p ∈ (floodFill x y width height t
      ((floodFill x y width height t data fuel1).data) fuel2).written) :
    p ∈ (floodFill x y width height t data fuel1).written := by
  have inv1 := floodFill_inv x y width height t data fuel1 hlen hx hy ht
  have hlen1 : (floodFill x y width height t data fuel1).data.length =
      width * height * 4 := by
    rw [inv1.toFillInvCore.len_eq, hlen]
  have inv2 := floodFill_inv x y width height t
    ((floodFill x y width height t data fuel1).data) fuel2 hlen1 hx hy ht
  have hseedW : (x, y) ∈ (floodFill x y width height t data fuel1).written := by
    rcases inv1.seedOk with ⟨hst, _⟩ | hsw
    · rw [hterm1] at hst
      exact absurd hst (by simp)
    · exact hsw
  have hz := inv1.toFillInvCore.dataZero (x, y) hseedW
  unfold getPixel zeroPixel at hz
  simp only [List.cons.injEq] at hz
  have hm2 := inv2.toFillInvCore.writtenMatch p hp2
  have hv2 := inv2.toFillInvCore.writtenValid p hp2
  obtain ⟨hrz0, hrz1, hrz2⟩ := match_zero_bounds _ _ _ t hz.1 hz.2.1 hz.2.2.1
    (pixIdx width p) hm2
  obtain ⟨hp1, hpw, hp3, hph⟩ := id hv2
  have hpa : ((p.1.toNat : Int), (p.2.toNat : Int)) = p := by
    apply Prod.ext <;> simp <;> omega
  have hmem := H p.1.toNat (by omega) p.2.toNat (by omega)
    (by rw [hpa]; exact hrz0) (by rw [hpa]; exact hrz1) (by rw [hpa]; exact hrz2)
  rw [hpa] at hmem
  exact hmem

theorem mkBounds_eval_zeros :
    mkBounds (List.replicate 64 0) (((0 : Int) * (4 : Nat) + 0) * 4) (1/20) =
      ⟨0, 0, 0, 0, 0, 0⟩ := by
  have h0 : jsRead (List.replicate 64 0) (((0 : Int) * (4 : Nat) + 0) * 4) = some 0 := by
    decide
  have h1 : jsRead (List.replicate 64 0) (((0 : Int) * (4 : Nat) + 0) * 4 + 1) = some 0 := by
    decide
  have h2 : jsRead (List.replicate 64 0) (((0 : Int) * (4 : Nat) + 0) * 4 + 2) = some 0 := by
    decide
  show Bounds.mk _ _ _ _ _ _ = _
  rw [h0, h1, h2]
  norm_num

set_option maxRecDepth 4000 in
theorem c6_idempotent_witness :
    (0, 0) ∈ (floodFill 0 0 4 4 (1/20) bufUniform 40).written := by
  have hd : (floodFill 0 0 4 4 (1/20) bufUniform 40).data = List.replicate 64 0 := by
    unfold floodFill
    rw [mkBounds_eval_uniform]
    decide
  have hw : (floodFill 0 0 4 4 (1/20) bufUniform 40).written =
      [(0, 0), (0, 1), (0, 2), (0, 3), (1, 0), (1, 1), (1, 2), (1, 3),
       (2, 0), (2, 1), (2, 2), (2, 3), (3, 0), (3, 1), (3, 2), (3, 3)] := by
    unfold floodFill
    rw [mkBounds_eval_uniform]
    decide
  apply c6_idempotent_amended 0 0 4 4 (1/20) bufUniform 40 (by decide) (by decide)
    (by decide) (by norm_num) ?hterm ?H 2 (0, 0) ?hp
  case hterm =>
    unfold floodFill
    rw [mkBounds_eval_uniform]
    decide
  case H =>
    rw [hd, hw]
    intro a ha b hb h0 h1 h2
    interval_cases a <;> interval_cases b <;> decide
  case hp =>
    rw [hd]
    unfold floodFill
    rw [mkBounds_eval_zeros]
    decide

/-! ## Termination measure: the number of matching pixels -/

theorem zero4_reads3 (data : List Nat) (i : Int) (h0 : 0 ≤ i)
    (h2 : i + 2 < (data.length : Int)) :
    jsRead (zero4 data i) i = some 0 ∧ jsRead (zero4 data i) (i + 1) = some 0 ∧
    jsRead (zero4 data i) (i + 2) = some 0 := by
  have l1 : (jsWrite data i 0).length = data.length := length_jsWrite data i 0
  have l2 : (jsWrite (jsWrite data i 0) (i + 1) 0).length = data.length := by
    rw [length_jsWrite, l1]
  refine ⟨?_, ?_, ?_⟩
  · unfold zero4
    rw [jsRead_jsWrite_ne _ i (i + 3) 0 (by omega),
        jsRead_jsWrite_ne _ i (i + 2) 0 (by omega),
        jsRead_jsWrite_ne _ i (i + 1) 0 (by omega)]
    exact jsRead_jsWrite_self data i 0 h0 (by omega)
  · unfold zero4
    rw [jsRead_jsWrite_ne _ (i + 1) (i + 3) 0 (by omega),
        jsRead_jsWrite_ne _ (i + 1) (i + 2) 0 (by omega)]
    exact jsRead_jsWrite_self _ (i + 1) 0 (by omega) (by rw [l1]; omega)
  · unfold zero4
    rw [jsRead_jsWrite_ne _ (i + 2) (i + 3) 0 (by omega)]
    exact jsRead_jsWrite_self _ (i + 2) 0 (by omega) (by rw [l2]; omega)

theorem matchTolerance_zero4_eq (data : List Nat) (bnds : Bounds) (i : Int) (h0 : 0 ≤ i)
    (h2 : i + 2 < (data.length : Int)) :
    matchTolerance (zero4 data i) bnds i = zeroMatches bnds := by
  obtain ⟨e0, e1, e2⟩ := zero4_reads3 data i h0 h2
  unfold matchTolerance
  rw [e0, e1, e2]
  rfl

theorem matchCount_le (data : List Nat) (bnds : Bounds) :
    matchCount data bnds ≤ data.length / 4 := by
  unfold matchCount
  calc ((Finset.range (data.length / 4)).filter
        (fun p => matchTolerance data bnds (4 * ((p : Nat) : Int)) = true)).card
      ≤ (Finset.range (data.length / 4)).card := Finset.card_filter_le _ _
    _ = data.length / 4 := Finset.card_range _

theorem matchCount_zero4 (data : List Nat) (bnds : Bounds) (i : Int)
    (hlen4 : 4 ∣ data.length)
    (hzm : zeroMatches bnds = false) (hm : matchTolerance data bnds i = true)
    (hal : 4 ∣ i) :
    matchCount (zero4 data i) bnds + 1 = matchCount data bnds := by
  obtain ⟨hi0, hi2⟩ := matchTolerance_true_bounds hm
  obtain ⟨c, hc⟩ := hal
  have hc0 : 0 ≤ c := by omega
  have hp0 : (c.toNat : Int) = c := Int.toNat_of_nonneg hc0
  unfold matchCount
  rw [length_zero4]
  set n := data.length / 4 with hn
  have hp0n : c.toNat < n := by omega
  have hsub : ∀ p : Nat, p ≠ c.toNat →
      matchTolerance (zero4 data i) bnds (4 * ((p : Nat) : Int)) =
        matchTolerance data bnds (4 * ((p : Nat) : Int)) := by
    intro p hne
    apply matchTolerance_congr
    · exact jsRead_zero4_ne data i _ (by omega)
    · exact jsRead_zero4_ne data i _ (by omega)
    · exact jsRead_zero4_ne data i _ (by omega)
  have hi4 : (4 : Int) * ((c.toNat : Nat) : Int) = i := by omega
  have hmem : c.toNat ∈ (Finset.range n).filter
      (fun p => matchTolerance data bnds (4 * ((p : Nat) : Int)) = true) := by
    simp only [Finset.mem_filter, Finset.mem_range]
    refine ⟨hp0n, ?_⟩
    rw [hi4]
    exact hm
  have hset : (Finset.range n).filter
      (fun p => matchTolerance (zero4 data i) bnds (4 * ((p : Nat) : Int)) = true) =
      ((Finset.range n).filter
        (fun p => matchTolerance data bnds (4 * ((p : Nat) : Int)) = true)).erase c.toNat := by
    ext p
    simp only [Finset.mem_filter, Finset.mem_erase, Finset.mem_range]
    constructor
    · rintro ⟨hpn, hpm⟩
      have hne : p ≠ c.toNat := by
        intro he
        rw [he, hi4, matchTolerance_zero4_eq data bnds i hi0 hi2, hzm] at hpm
        exact absurd hpm (by simp)
      exact ⟨hne, hpn, ((hsub p hne).symm.trans hpm)⟩
    · rintro ⟨hne, hpn, hpm⟩
      exact ⟨hpn, (hsub p hne).trans hpm⟩
  rw [hset, Finset.card_erase_of_mem hmem]
  have hpos : 0 < ((Finset.range n).filter
      (fun p => matchTolerance data bnds (4 * ((p : Nat) : Int)) = true)).card :=
    Finset.card_pos.2 ⟨c.toNat, hmem⟩
  omega

/-! ## The measure decreases and the loop terminates -/

theorem downBody_stack (width : Nat) (bnds : Bounds) (x y pixelPos : Int) (rl rr : Bool)
    (s : FillState) :
    ∃ ex : List (Int × Int),
      (downBody width bnds x y pixelPos rl rr s).1.pixelStack = ex ++ s.pixelStack ∧
      ex.length ≤ 2 := by
  simp only [downBody, downBodyLeft, downBodyRight]
  split_ifs <;>
    first
      | exact ⟨[], rfl, by simp⟩
      | exact ⟨[(x - 1, y + 1)], rfl, by simp⟩
      | exact ⟨[(x + 1, y + 1)], rfl, by simp⟩
      | exact ⟨[(x + 1, y)], rfl, by simp⟩
      | exact ⟨[(x + 1, y + 1), (x - 1, y + 1)], rfl, by simp⟩
      | exact ⟨[(x + 1, y), (x - 1, y + 1)], rfl, by simp⟩

theorem downWalk_length (width height : Nat) (bnds : Bounds) (x : Int) :
    ∀ (n : Nat) (y pixelPos : Int) (rl rr : Bool) (s : FillState),
      (downWalk width height bnds x n y pixelPos rl rr s).data.length = s.data.length := by
  intro n
  induction n with
  | zero =>
    intro y pixelPos rl rr s
    rfl
  | succ n ih =>
    intro y pixelPos rl rr s
    simp only [downWalk]
    by_cases hg : y < (height : Int) - 1
    · rw [if_pos hg]
      by_cases hm : matchTolerance s.data bnds pixelPos = true
      · rw [if_pos hm]
        rw [ih]
        rw [(downBody_shape width bnds x y pixelPos rl rr s).1, length_zero4]
      · rw [if_neg hm]
    · rw [if_neg hg]

theorem downWalk_mu (width height : Nat) (bnds : Bounds) (x : Int)
    (hzm : zeroMatches bnds = false) :
    ∀ (n : Nat) (y pixelPos : Int) (rl rr : Bool) (s : FillState),
      4 ∣ pixelPos → 4 ∣ s.data.length →
      stateMeasure bnds (downWalk width height bnds x n y pixelPos rl rr s) ≤
        3 * matchCount s.data bnds + s.pixelStack.length := by
  intro n
  induction n with
  | zero =>
    intro y pixelPos rl rr s _ _
    exact le_of_eq rfl
  | succ n ih =>
    intro y pixelPos rl rr s hal hlen4
    simp only [downWalk]
    by_cases hg : y < (height : Int) - 1
    · rw [if_pos hg]
      by_cases hm : matchTolerance s.data bnds pixelPos = true
      · rw [if_pos hm]
        obtain ⟨hBd, hBw⟩ := downBody_shape width bnds x y pixelPos rl rr s
        obtain ⟨ex, hex, hexl⟩ := downBody_stack width bnds x y pixelPos rl rr s
        have hflip := matchCount_zero4 s.data bnds pixelPos hlen4 hzm hm hal
        have h1 := ih (y + 1) (pixelPos + (width : Int) * 4)
          (downBody width bnds x y pixelPos rl rr s).2.1
          (downBody width bnds x y pixelPos rl rr s).2.2
          (downBody width bnds x y pixelPos rl rr s).1
          (by omega) (by rw [hBd, length_zero4]; exact hlen4)
        rw [hBd, hex] at h1
        rw [List.length_append] at h1
        omega
      · rw [if_neg hm]
        exact le_of_eq rfl
    · rw [if_neg hg]
      exact le_of_eq rfl

theorem upWalk_dvd (data : List Nat) (bnds : Bounds) (stride : Int) (hs : 4 ∣ stride) :
    ∀ (n : Nat) (y p : Int) (pr : List Int),
      4 ∣ p → 4 ∣ (upWalk data bnds stride n y p pr).2.1 := by
  intro n
  induction n with
  | zero =>
    intro y p pr hp
    exact hp
  | succ n ih =>
    intro y p pr hp
    simp only [upWalk]
    by_cases hy : 0 ≤ y
    · rw [if_pos hy]
      by_cases hm : matchTolerance data bnds p = true
      · rw [if_pos hm]
        exact ih (y - 1) (p - stride) (pr ++ [p]) (by omega)
      · rw [if_neg hm]
        exact hp
    · rw [if_neg hy]
      exact hp

theorem processPixel_mu (width height : Nat) (bnds : Bounds)
    (hzm : zeroMatches bnds = false) (q : Int × Int) (rest : List (Int × Int))
    (s : FillState) (hstack : s.pixelStack = q :: rest) (hlen4 : 4 ∣ s.data.length) :
    stateMeasure bnds (processPixel width height bnds q.1 q.2
      { s with pixelStack := rest }) + 1 ≤ stateMeasure bnds s := by
  have heq : processPixel width height bnds q.1 q.2 { s with pixelStack := rest } =
      downWalk width height bnds q.1
        (((height : Int) - 1 -
          ((upWalk s.data bnds ((width : Int) * 4) ((q.2 + 1).toNat) q.2
            (pixIdx width (q.1, q.2)) s.probes).1 + 1)).toNat)
        ((upWalk s.data bnds ((width : Int) * 4) ((q.2 + 1).toNat) q.2
          (pixIdx width (q.1, q.2)) s.probes).1 + 1)
        ((upWalk s.data bnds ((width : Int) * 4) ((q.2 + 1).toNat) q.2
          (pixIdx width (q.1, q.2)) s.probes).2.1 + (width : Int) * 4)
        false false
        { s with pixelStack := rest,
                 probes := (upWalk s.data bnds ((width : Int) * 4) ((q.2 + 1).toNat) q.2
                   (pixIdx width (q.1, q.2)) s.probes).2.2 } := rfl
  rw [heq]
  have hdvd0 : (4 : Int) ∣ pixIdx width (q.1, q.2) := ⟨q.2 * (width : Int) + q.1, by
    unfold pixIdx
    ring⟩
  have hdvd1 := upWalk_dvd s.data bnds ((width : Int) * 4) (by omega) ((q.2 + 1).toNat)
    q.2 (pixIdx width (q.1, q.2)) s.probes hdvd0
  have h1 := downWalk_mu width height bnds q.1 hzm
    (((height : Int) - 1 -
      ((upWalk s.data bnds ((width : Int) * 4) ((q.2 + 1).toNat) q.2
        (pixIdx width (q.1, q.2)) s.probes).1 + 1)).toNat)
    ((upWalk s.data bnds ((width : Int) * 4) ((q.2 + 1).toNat) q.2
      (pixIdx width (q.1, q.2)) s.probes).1 + 1)
    ((upWalk s.data bnds ((width : Int) * 4) ((q.2 + 1).toNat) q.2
      (pixIdx width (q.1, q.2)) s.probes).2.1 + (width : Int) * 4)
    false false
    { s with pixelStack := rest,
             probes := (upWalk s.data bnds ((width : Int) * 4) ((q.2 + 1).toNat) q.2
               (pixIdx width (q.1, q.2)) s.probes).2.2 }
    (by omega) hlen4
  have h2 : stateMeasure bnds s = 3 * matchCount s.data bnds + (rest.length + 1) := by
    unfold stateMeasure
    rw [hstack]
    rfl
  rw [h2]
  exact Nat.add_le_add_right h1 1

theorem processPixel_length (width height : Nat) (bnds : Bounds) (x y : Int)
    (s : FillState) :
    (processPixel width height bnds x y s).data.length = s.data.length := by
  have heq : processPixel width height bnds x y s =
      downWalk width height bnds x
        (((height : Int) - 1 -
          ((upWalk s.data bnds ((width : Int) * 4) ((y + 1).toNat) y
            ((y * (width : Int) + x) * 4) s.probes).1 + 1)).toNat)
        ((upWalk s.data bnds ((width : Int) * 4) ((y + 1).toNat) y
          ((y * (width : Int) + x) * 4) s.probes).1 + 1)
        ((upWalk s.data bnds ((width : Int) * 4) ((y + 1).toNat) y
          ((y * (width : Int) + x) * 4) s.probes).2.1 + (width : Int) * 4)
        false false
        { s with probes := (upWalk s.data bnds ((width : Int) * 4) ((y + 1).toNat) y
            ((y * (width : Int) + x) * 4) s.probes).2.2 } := rfl
  rw [heq]
  exact (downWalk_length width height bnds x _ _ _ false false _).trans rfl

theorem fillRun_term (width height : Nat) (bnds : Bounds)
    (hzm : zeroMatches bnds = false) :
    ∀ (fuel : Nat) (s : FillState), 4 ∣ s.data.length →
      stateMeasure bnds s < fuel →
      (fillRun width height bnds fuel s).pixelStack = [] := by
  intro fuel
  induction fuel with
  | zero =>
    intro s _ h
    exact absurd h (by omega)
  | succ fuel ih =>
    intro s hlen4 hmu
    simp only [fillRun]
    cases hstack : s.pixelStack with
    | nil => exact hstack
    | cons q rest =>
      apply ih
      · rw [processPixel_length]
        exact hlen4
      · have := processPixel_mu width height bnds hzm q rest s hstack hlen4
        omega

/-- C1 amended: when the all-zero colour does not satisfy the captured
bounds (e.g. any seed with a nonzero channel and tolerance below 1), the
fill terminates: the outer loop reaches the empty-stack exit within
`3 * width * height + 2` iterations. -/
theorem c1_termination_amended (x y : Int) (width height : Nat) (tolerance : ℚ)
    (data : List Nat) (hlen : data.length = width * height * 4)
    (hx : 0 ≤ x ∧ x < (width : Int)) (hy : 0 ≤ y ∧ y < (height : Int))
    (hzm : zeroMatches (mkBounds data (pixIdx width (x, y)) tolerance) = false) :
    (floodFill x y width height tolerance data
      (3 * (width * height) + 2)).pixelStack = [] := by
  unfold floodFill
  apply fillRun_term width height _ hzm
  · show 4 ∣ data.length
    rw [hlen]
    exact ⟨width * height, by ring⟩
  · show stateMeasure _ _ < 3 * (width * height) + 2
    have hmc := matchCount_le data (mkBounds data (pixIdx width (x, y)) tolerance)
    unfold stateMeasure
    simp only [List.length_singleton]
    omega

theorem c1_termination_witness :
    (floodFill 0 0 4 4 (1/20) bufUniform (3 * (4 * 4) + 2)).pixelStack = [] :=
  c1_termination_amended 0 0 4 4 (1/20) bufUniform (by decide) (by decide) (by decide)
    (by
      rw [show pixIdx 4 ((0 : Int), (0 : Int)) = (((0 : Int) * (4 : Nat) + 0) * 4) from rfl,
        mkBounds_eval_uniform]
      decide)
